import Mathlib

/-!
# Insight-Hub BI Dashboard — verification of the aggregation engine and
  dashboard state controller

Shallow embedding of the TypeScript sources:

* `src/utils/dataProcessor.ts` — `aggregateData` (the implementation imported
  by `ChartWidget`), embedded as `aggregateData`;
* `src/unnamed/part_001` — the second `aggregateData` implementation present
  in the repository (it additionally skips groups whose numeric pool is
  empty), embedded as `aggregateDataVariant`;
* `src/unnamed/part_000` — `getFileNameWithoutExtension`;
* `src/App.tsx` — `handleSaveChart`, `handleClearDashboard`,
  `handleFileUpload` (post-parse state transition), the restore-on-auth
  effect, and the `sortedCharts` memo.

Modelling conventions:

* JS cell values (`string | number`, plus `NaN` and `undefined`) are the
  inductive `JsVal` / `Option JsVal`; numbers are exact rationals (the claims
  at issue are structural, not about float rounding).
* JS objects used as string-keyed maps are insertion-ordered association
  lists with unique keys; `Object.keys` / `for..in` enumeration follows the
  ECMAScript own-property order (array-index keys ascending first, then
  insertion order), embedded as `jsObjectKeys`.
* The JS builtins `String(·)` and `Number(·)` on numeric payloads are
  abstracted as a `JsPrims` parameter (`numToStr`, `strToNum`); theorems
  quantify over it, and `refPrims` is a concrete executable instance used by
  closed witnesses and counterexamples.
* `Array.prototype.sort` (stable since ES2019) is the stable insertion sort
  `jsSort` driven by an integer-valued comparator; a comparator returning
  `NaN` is treated as `0` (ES leaves such orders implementation-defined).
* `localeCompare` is modelled as code-point lexicographic comparison
  (`strCmpInt`): a total order standing in for the locale order.
-/

/-- JS value stored in a row cell: a string, a (finite) number, or `NaN`. -/
inductive JsVal where
  | str (s : String)
  | num (q : ℚ)
  | nan
deriving DecidableEq

/-- A data row: a JS object, i.e. an insertion-ordered association list from
column name to cell value (`DataRow` in `src/types.ts`). -/
abbrev DataRow := List (String × JsVal)

/-- `AggregationType` from `src/types.ts`. -/
inductive AggregationType where
  | Sum
  | Count
  | Average
deriving DecidableEq

/-- `ChartType` from `src/types.ts`. -/
inductive ChartType where
  | Bar
  | Line
  | Area
  | Pie
  | Donut
  | Scatter
deriving DecidableEq

/-- `ChartConfig` from `src/types.ts`. -/
structure ChartConfig where
  id : String
  title : String
  type : ChartType
  xAxis : String
  yAxis : String
  aggregation : AggregationType
deriving DecidableEq

/-- Property read `row[c]` on a JS object: first entry with the key, if any
(`undefined` is `none`). -/
def getCell (row : DataRow) (c : String) : Option JsVal :=
  (row.find? (fun p => p.1 == c)).map Prod.snd

/-- Models of the JS numeric builtins `String(number)` and `Number(string)`
(`none` = `NaN`).  Theorems quantify over this structure. -/
structure JsPrims where
  numToStr : ℚ → String
  strToNum : String → Option ℚ
  /-- The primitive (string) that the inherited `Object.prototype` function
  member named `k` converts to inside `+` (host-dependent). -/
  protoFnStr : String → String

/-- JS `String(v)` on a cell (`String(undefined) = "undefined"`). -/
def jsToString (p : JsPrims) : Option JsVal → String
  | none => "undefined"
  | some (.str s) => s
  | some (.num q) => p.numToStr q
  | some .nan => "NaN"

/-- JS `Number(v)` on a cell, `none` representing `NaN`
(`Number(undefined) = NaN`). -/
def jsToNumber (p : JsPrims) : Option JsVal → Option ℚ
  | none => none
  | some (.str s) => p.strToNum s
  | some (.num q) => some q
  | some .nan => none

/-- The stringified group key of a row: `String(row[groupBy])`. -/
def strKey (p : JsPrims) (g : String) (r : DataRow) : String :=
  jsToString p (getCell r g)

/-- Update every entry stored under `k` in place. -/
def updEntry {α : Type} (k : String) (f : α → α) (l : List (String × α)) :
    List (String × α) :=
  l.map (fun e => if e.1 == k then (e.1, f e.2) else e)

/-- JS object-literal property assignment: overwrite in place if the key
exists, otherwise append. -/
def objInsert (row : DataRow) (k : String) (v : JsVal) : DataRow :=
  if (row.find? (fun e => e.1 == k)).isSome then
    updEntry k (fun _ => v) row
  else
    row ++ [(k, v)]

/-- A JS object literal built from a (possibly key-repeating) list of
computed property assignments, later assignments overwriting earlier ones. -/
def objMk (l : List (String × JsVal)) : DataRow :=
  l.foldl (fun r e => objInsert r e.1 e.2) []

/-- Lexicographic (code-point) three-way comparison of character lists;
model for the sign of `localeCompare`. -/
def lexCmp : List Char → List Char → Int
  | [], [] => 0
  | [], _ :: _ => -1
  | _ :: _, [] => 1
  | a :: as, b :: bs =>
    if a < b then -1 else if b < a then 1 else lexCmp as bs

/-- Sign of `a.localeCompare(b)` in the model. -/
def strCmpInt (a b : String) : Int :=
  lexCmp a.toList b.toList

/-- Sign of the JS comparator `x - y` on two numbers-or-`NaN`; a `NaN`
comparator value is treated as `0` by the sort. -/
def numCmpInt : Option ℚ → Option ℚ → Int
  | some q, some r => if q < r then -1 else if r < q then 1 else 0
  | _, _ => 0

/-- Stable insertion of `a` into `l` for a JS comparator `c`: `a` goes before
the first element `b` with `c a b ≤ 0`. -/
def jsInsert {α : Type} (c : α → α → Int) (a : α) : List α → List α
  | [] => [a]
  | b :: l => if c a b ≤ 0 then a :: b :: l else b :: jsInsert c a l

/-- Stable sort by a JS comparator (the behaviour of `Array.prototype.sort`
with a consistent comparator, which is stable per ES2019). -/
def jsSort {α : Type} (c : α → α → Int) (l : List α) : List α :=
  l.foldr (jsInsert c) []

/-- Whether a string is an ECMAScript array-index property key (canonical
decimal, value below `2^32 - 1`). -/
def isArrayIndex (s : String) : Bool :=
  match s.toList with
  | [] => false
  | c :: cs =>
    (c :: cs).all Char.isDigit &&
      (cs.isEmpty || c != '0') &&
      decide (digitsVal (c :: cs) < 4294967295)
where
  /-- Numeric value of a digit string. -/
  digitsVal : List Char → ℕ
    | [] => 0
    | c :: cs => digitsVal cs + c.toNat.sub 48 * 10 ^ cs.length

/-- Comparator sorting array-index keys ascending by numeric value. -/
def idxCmp (a b : String) : Int :=
  numCmpInt (some (isArrayIndex.digitsVal a.toList)) (some (isArrayIndex.digitsVal b.toList))

/-- ECMAScript own-property enumeration order (`Object.keys`, `for..in`)
applied to an insertion-ordered list of distinct keys: array-index keys in
ascending numeric order first, then the rest in insertion order. -/
def jsObjectKeys (ks : List String) : List String :=
  jsSort idxCmp (ks.filter isArrayIndex) ++ ks.filter (fun s => !isArrayIndex s)

/-- Association-list lookup (the value stored under `k`, if any). -/
def alookup {α : Type} (l : List (String × α)) (k : String) : Option α :=
  (l.find? (fun e => e.1 == k)).map Prod.snd

/-- The frequency-loop step restricted to keys that do not collide with an
`Object.prototype` member: a pure counter bump.  Proof-side description of
`bumpItem` on clean keys (see `bumpItem_clean`). -/
def cleanBump (acc : List (String × ℕ)) (k : String) : List (String × ℕ) :=
  if (acc.find? (fun e => e.1 == k)).isSome then
    updEntry k (fun n => n + 1) acc
  else acc ++ [(k, 1)]

/-- The `counts` table for a row set none of whose stringified keys collide
with `Object.prototype` (see `cleanCounts_eq`). -/
def cleanCounts (p : JsPrims) (g : String) (rows : List DataRow) :
    List (String × ℕ) :=
  rows.foldl (fun acc r => cleanBump acc (strKey p g r)) []

/-- The key-creation step (`if (!grouped[key]) grouped[key] = []`) on a
clean key, where the missing-key read really yields `undefined`. -/
def cleanEnsure (acc : List (String × List ℚ)) (k : String) :
    List (String × List ℚ) :=
  if (acc.find? (fun e => e.1 == k)).isSome then acc else acc ++ [(k, [])]

/-- The grouping-loop step restricted to clean keys: ensure the entry, then
push the coerced measure value when it is not `NaN`.  Proof-side
description of `groupStep` on clean keys (see `groupStep_clean`). -/
def cleanGroupItem (acc : List (String × List ℚ)) (it : String × Option ℚ) :
    List (String × List ℚ) :=
  match it.2 with
  | some q => updEntry it.1 (fun vs => vs ++ [q]) (cleanEnsure acc it.1)
  | none => cleanEnsure acc it.1

/-- The `grouped` table for a row set none of whose stringified keys collide
with `Object.prototype` (see `cleanGroups_eq`). -/
def cleanGroups (p : JsPrims) (g m : String) (rows : List DataRow) :
    List (String × List ℚ) :=
  rows.foldl (fun acc r => cleanGroupItem acc (strKey p g r, jsToNumber p (getCell r m))) []

/-- The per-group reduction of `aggregateData`'s `switch` (`none` = `NaN`;
`Average` of an empty pool is `0/0 = NaN`; the closed enum has no reachable
`default`).  The source reduces in binary64, whose addition is
order-sensitive; this model uses exact rationals, so theorems rely on the
`Sum`/`Average` values only where the pools compared are *identical
sequences* (never merely permutations) or in closed evaluations whose
arithmetic is exact in binary64 as well; only the order-insensitive `Count`
is ever claimed permutation-invariant. -/
def resultVal (agg : AggregationType) (vs : List ℚ) : Option ℚ :=
  match agg with
  | .Sum => some (vs.foldl (fun a b => a + b) 0)
  | .Count => some (vs.length : ℚ)
  | .Average =>
    if vs.length = 0 then none
    else some (vs.foldl (fun a b => a + b) 0 / (vs.length : ℚ))

/-- A reduction result as a cell value (`NaN` for `none`). -/
def resultCell : Option ℚ → JsVal
  | some q => .num q
  | none => .nan

/-- The final sort comparator of `aggregateData`: `localeCompare` when both
group cells are strings (`typeof ... === 'string'`), otherwise the sign of JS
subtraction after `ToNumber` coercion. -/
def cmpRows (p : JsPrims) (g : String) (a b : DataRow) : Int :=
  match getCell a g, getCell b g with
  | some (.str x), some (.str y) => strCmpInt x y
  | ca, cb => numCmpInt (jsToNumber p ca) (jsToNumber p cb)

/-- Equality of `Except` results is decidable componentwise. -/
instance instDecEqExcept {ε α : Type} [DecidableEq ε] [DecidableEq α] :
    DecidableEq (Except ε α) := fun a b =>
  match a, b with
  | .ok x, .ok y =>
    if h : x = y then .isTrue (by rw [h])
    else .isFalse (fun hh => h (Except.ok.inj hh))
  | .error x, .error y =>
    if h : x = y then .isTrue (by rw [h])
    else .isFalse (fun hh => h (Except.error.inj hh))
  | .ok _, .error _ => .isFalse (fun hh => Except.noConfusion hh)
  | .error _, .ok _ => .isFalse (fun hh => Except.noConfusion hh)

/-- The own property names of `Object.prototype` (the data members are
functions; `__proto__` is an accessor).  Reading a missing key of a plain
`{}` object through one of these names yields a truthy inherited value
instead of `undefined`. -/
def objProtoNames : List String :=
  ["__proto__", "constructor", "hasOwnProperty", "isPrototypeOf",
   "propertyIsEnumerable", "toLocaleString", "toString", "valueOf",
   "__defineGetter__", "__defineSetter__", "__lookupGetter__",
   "__lookupSetter__"]

/-- A value stored in the `counts` object: a genuine count, or the garbage
string produced when the key collides with an inherited `Object.prototype`
member (`(counts[key] || 0) + 1` string-concatenates the truthy inherited
function). -/
inductive JsCount where
  | num (n : ℕ)
  | str (s : String)
deriving DecidableEq

/-- The cell value the frequency path emits for `counts[key]` (always an
own key when enumerated, so `none` is unreachable there). -/
def countCell : Option JsCount → JsVal
  | some (.num n) => .num (n : ℚ)
  | some (.str s) => .str s
  | none => .nan

/-- A runtime exception of the embedded code: the `TypeError` thrown by
calling `push` on an inherited non-array member. -/
inductive JsException where
  | typeError
deriving DecidableEq

/-- One iteration of the frequency loop
(`counts[key] = (counts[key] || 0) + 1`) on the plain `{}` object `counts`,
with the prototype chain: an own count (truthy, or `0` via `|| 0`) is
bumped; an own garbage string gets `"1"` concatenated; on a missing key,
`__proto__` hits the inherited accessor whose setter ignores the write — no
own key is ever created; another `Object.prototype` name reads the truthy
inherited function, so the stored value becomes the string `fn + 1`; a
clean key starts at `0 + 1`. -/
def bumpItem (p : JsPrims) (acc : List (String × JsCount)) (k : String) :
    List (String × JsCount) :=
  match alookup acc k with
  | some _ =>
    updEntry k (fun v =>
      match v with
      | .num n => .num (n + 1)
      | .str s => if s.toList.isEmpty then .num 1 else .str (s ++ "1")) acc
  | none =>
    if k = "__proto__" then acc
    else if k ∈ objProtoNames then acc ++ [(k, .str (p.protoFnStr k ++ "1"))]
    else acc ++ [(k, .num 1)]

/-- The `counts` object after the frequency loop of `aggregateData`. -/
def buildCounts (p : JsPrims) (g : String) (rows : List DataRow) :
    List (String × JsCount) :=
  rows.foldl (fun acc r => bumpItem p acc (strKey p g r)) []

/-- One iteration of the grouping loop of `aggregateData` on the plain `{}`
object `grouped`, with the prototype chain: `!grouped[key]` is false both
for an own array and for a truthy inherited `Object.prototype` member, so
only clean missing keys are initialised to `[]`; a subsequent `push` of a
coercible value on an inherited member throws `TypeError`, while a `NaN`
value skips the push and the group silently never exists. -/
def groupStep (acc : List (String × List ℚ)) (it : String × Option ℚ) :
    Except JsException (List (String × List ℚ)) :=
  if (acc.find? (fun e => e.1 == it.1)).isSome then
    match it.2 with
    | some q => .ok (updEntry it.1 (fun vs => vs ++ [q]) acc)
    | none => .ok acc
  else if it.1 ∈ objProtoNames then
    match it.2 with
    | some _ => .error .typeError
    | none => .ok acc
  else
    match it.2 with
    | some q => .ok (updEntry it.1 (fun vs => vs ++ [q]) (acc ++ [(it.1, [])]))
    | none => .ok (acc ++ [(it.1, [])])

/-- The `grouped` object after the grouping loop of `aggregateData`, or the
`TypeError` the loop throws. -/
def buildGroups (p : JsPrims) (g m : String) (rows : List DataRow) :
    Except JsException (List (String × List ℚ)) :=
  rows.foldlM (fun acc r =>
    groupStep acc (strKey p g r, jsToNumber p (getCell r m))) []

/-- A clean counts table viewed as a `counts` object (all values genuine
numbers). -/
def embedCounts (l : List (String × ℕ)) : List (String × JsCount) :=
  l.map (fun e => (e.1, JsCount.num e.2))

/-- Body of `aggregateData` from `src/utils/dataProcessor.ts` once `data` is
known non-null; the `Except` layer carries the `TypeError` the grouping
loop can throw. -/
def aggregateDataRows (p : JsPrims) (rows : List DataRow)
    (groupBy valueColumn : String) (aggregation : AggregationType) :
    Except JsException (List DataRow) :=
  if rows.length = 0 then .ok []
  else if aggregation = .Count ∧ groupBy = valueColumn then
    .ok ((jsObjectKeys ((buildCounts p groupBy rows).map Prod.fst)).map
      (fun key =>
        objMk [(groupBy, .str key),
               (valueColumn, countCell (alookup (buildCounts p groupBy rows) key))]))
  else
    (buildGroups p groupBy valueColumn rows).map (fun grouped =>
      jsSort (cmpRows p groupBy)
        ((jsObjectKeys (grouped.map Prod.fst)).map (fun key =>
          objMk [(groupBy, .str key),
                 (valueColumn,
                  resultCell (resultVal aggregation
                    ((alookup grouped key).getD [])))])))

/-- `aggregateData` from `src/utils/dataProcessor.ts` (the implementation
imported by `ChartWidget`).  `data` is `Option`al to model the
`!data || data.length === 0` guard; `.error` models a thrown `TypeError`. -/
def aggregateData (p : JsPrims) (data : Option (List DataRow))
    (groupBy valueColumn : String) (aggregation : AggregationType) :
    Except JsException (List DataRow) :=
  match data with
  | none => .ok []
  | some rows => aggregateDataRows p rows groupBy valueColumn aggregation

/-- Body of the `src/unnamed/part_001` variant once `data` is known
non-null: identical to `aggregateDataRows` except the general case skips
groups with an empty numeric pool (`if (values.length === 0) continue`). -/
def aggregateDataVariantRows (p : JsPrims) (rows : List DataRow)
    (groupBy valueColumn : String) (aggregation : AggregationType) :
    Except JsException (List DataRow) :=
  if rows.length = 0 then .ok []
  else if aggregation = .Count ∧ groupBy = valueColumn then
    .ok ((jsObjectKeys ((buildCounts p groupBy rows).map Prod.fst)).map
      (fun key =>
        objMk [(groupBy, .str key),
               (valueColumn, countCell (alookup (buildCounts p groupBy rows) key))]))
  else
    (buildGroups p groupBy valueColumn rows).map (fun grouped =>
      jsSort (cmpRows p groupBy)
        (((jsObjectKeys (grouped.map Prod.fst)).filter
            (fun key => !((alookup grouped key).getD []).isEmpty)).map
          (fun key =>
            objMk [(groupBy, .str key),
                   (valueColumn,
                    resultCell (resultVal aggregation
                      ((alookup grouped key).getD [])))])))

/-- `aggregateData` from `src/unnamed/part_001`. -/
def aggregateDataVariant (p : JsPrims) (data : Option (List DataRow))
    (groupBy valueColumn : String) (aggregation : AggregationType) :
    Except JsException (List DataRow) :=
  match data with
  | none => .ok []
  | some rows => aggregateDataVariantRows p rows groupBy valueColumn aggregation

/-- Record a key on first sight (key-creation order of a JS object). -/
def insertKey (ks : List String) (k : String) : List String :=
  if k ∈ ks then ks else ks ++ [k]

/-- Fold `insertKey` over a list of keys. -/
def insKeys (acc ks : List String) : List String :=
  ks.foldl insertKey acc

/-- The distinct stringified `g`-values of `rows`, in first-occurrence
order: the key-creation order of the `counts` / `grouped` objects. -/
def rowKeys (p : JsPrims) (g : String) (rows : List DataRow) : List String :=
  insKeys [] (rows.map (strKey p g))

/-- The numeric pool of group `k`: the measure values of the rows whose
group key stringifies to `k`, in row order, those failing `Number` coercion
dropped. -/
def poolOf (p : JsPrims) (g m : String) (rows : List DataRow) (k : String) :
    List ℚ :=
  rows.filterMap (fun r =>
    if strKey p g r == k then jsToNumber p (getCell r m) else none)

/-- The number of rows whose `g`-value stringifies to `k`. -/
def freqCount (p : JsPrims) (g : String) (rows : List DataRow) (k : String) : ℕ :=
  (rows.map (strKey p g)).count k

/-- Concrete executable instance of the JS numeric builtins, used by closed
witnesses and counterexamples: integers print as their decimal numeral, and
`Number(s)` parses canonical decimal naturals (`Number("") = 0`, anything
else is `NaN`).  Closed theorems only apply it to inputs on which it agrees
with the JS builtins. -/
def refPrims : JsPrims where
  numToStr q := toString q.num
  protoFnStr k := "function " ++ k
  strToNum s :=
    match s.toList with
    | [] => some 0
    | c :: cs =>
      if (c :: cs).all Char.isDigit && (cs.isEmpty || c != '0') then
        some ((isArrayIndex.digitsVal (c :: cs) : ℚ))
      else none

/-! ## Dashboard state controller (`src/App.tsx`) and file utilities -/

/-- `getFileNameWithoutExtension` from `src/unnamed/part_000`:
`fileName.substring(0, fileName.lastIndexOf('.')) || fileName` — JS
`substring` clamps a negative end to `0`, and an empty result is falsy. -/
def getFileNameWithoutExtension (fileName : String) : String :=
  match (fileName.toList.reverse.findIdx? (fun c => c == '.')).map
      (fun j => fileName.toList.length - 1 - j) with
  | none => fileName
  | some i =>
    if (fileName.toList.take i).isEmpty then fileName
    else String.mk (fileName.toList.take i)

/-- The in-memory dashboard state owned by `App` (the `useState` cells the
verified handlers touch). -/
structure AppState where
  data : Option (List DataRow)
  columns : List String
  charts : List ChartConfig
  dashboardTitle : String
  fileName : String
  isRestored : Bool
deriving DecidableEq

/-- `handleSaveChart` from `src/App.tsx`: in edit mode (an `editingChart` is
set) replace by id via `map`; in create mode append. -/
def handleSaveChart (editingChart : Option ChartConfig) (config : ChartConfig)
    (charts : List ChartConfig) : List ChartConfig :=
  match editingChart with
  | some _ =>
    charts.map (fun chart => if chart.id = config.id then config else chart)
  | none => charts ++ [config]

/-- `handleClearDashboard` from `src/App.tsx`: `setCharts([])` only. -/
def handleClearDashboard (st : AppState) : AppState :=
  { st with charts := [] }

/-- `Object.keys` of a row object (used for `setColumns`). -/
def rowObjectKeys (r : DataRow) : List String :=
  jsObjectKeys (insKeys [] (r.map Prod.fst))

/-- The `reader.onload` success path of `handleFileUpload` from
`src/App.tsx`, as a transition on the controller state: `jsonData` is the
parsed sheet, `fname` the uploaded file's name. -/
def handleFileUpload (st : AppState) (fname : String)
    (jsonData : List DataRow) : AppState :=
  let st1 : AppState :=
    { st with
      data := some jsonData
      columns :=
        if jsonData.length > 0 then rowObjectKeys (jsonData.headD [])
        else st.columns }
  let st2 : AppState :=
    if ¬ st.isRestored ∨ st.fileName ≠ fname then
      { st1 with
        dashboardTitle := getFileNameWithoutExtension fname
        charts := [] }
    else st1
  { st2 with fileName := fname, isRestored := false }

/-- `parseInt` on an id string, as used by the date sort comparators
(`none` = `NaN`); ids are `Date.now().toString()`, so a nonnegative decimal
model suffices. -/
def jsParseInt (s : String) : Option ℚ :=
  if (s.toList.takeWhile Char.isDigit).isEmpty then none
  else some ((isArrayIndex.digitsVal (s.toList.takeWhile Char.isDigit) : ℚ))

/-- The label a `ChartType` stringifies to. -/
def chartTypeLabel : ChartType → String
  | .Bar => "Bar"
  | .Line => "Line"
  | .Area => "Area"
  | .Pie => "Pie"
  | .Donut => "Donut"
  | .Scatter => "Scatter"

/-- The `sortedCharts` memo from `src/App.tsx`: `[...charts].sort(cmp)` with
the comparator selected by `sortOption` (default `date-desc`). -/
def sortedCharts (charts : List ChartConfig) (sortOption : String) :
    List ChartConfig :=
  if sortOption = "date-asc" then
    jsSort (fun a b => numCmpInt (jsParseInt a.id) (jsParseInt b.id)) charts
  else if sortOption = "date-desc" then
    jsSort (fun a b => numCmpInt (jsParseInt b.id) (jsParseInt a.id)) charts
  else if sortOption = "title-asc" then
    jsSort (fun a b => strCmpInt a.title b.title) charts
  else if sortOption = "title-desc" then
    jsSort (fun a b => strCmpInt b.title a.title) charts
  else if sortOption = "type-asc" then
    jsSort (fun a b => strCmpInt (chartTypeLabel a.type) (chartTypeLabel b.type)) charts
  else
    jsSort (fun a b => numCmpInt (jsParseInt b.id) (jsParseInt a.id)) charts

/-- What `JSON.parse` can yield for the autosave snapshot: each field
present-and-non-null or not.  `savedState.charts` is truthy iff present (an
array is truthy even when empty); the string fields are truthy iff present
and nonempty. -/
structure ParsedSnapshot where
  charts : Option (List ChartConfig)
  fileName : Option String
  dashboardTitle : Option String

/-- JS truthiness of an optional string field. -/
def truthyStr : Option String → Bool
  | some s => !s.toList.isEmpty
  | none => false

/-- The `try` block of the restore effect, given the outcome of
`JSON.parse` (`none` = it threw, landing in the `catch` that removes the
entry). -/
def restoreParsed (pr : Option ParsedSnapshot) (s : String) (st : AppState) :
    AppState × Option String :=
  match pr with
  | none => (st, none)
  | some snap =>
    if snap.charts.isSome ∧ truthyStr snap.fileName then
      (let st1 : AppState :=
        { st with
          charts := snap.charts.getD []
          fileName := snap.fileName.getD ""
          isRestored := true }
      if truthyStr snap.dashboardTitle then
        { st1 with dashboardTitle := snap.dashboardTitle.getD "" }
      else st1,
      some s)
    else (st, some s)

/-- The restore-on-authentication effect from `src/App.tsx` (lines 68–89)
as a function of the stored autosave entry: `parse` models `JSON.parse`
(`none` = throws), the result pairs the next state with the storage entry
left behind (`none` = removed or absent).  The `if (savedStateJSON)`
truthiness guard skips the whole block for a stored empty string, leaving
the entry in place. -/
def restoreOnAuth (parse : String → Option ParsedSnapshot)
    (saved : Option String) (st : AppState) : AppState × Option String :=
  match saved with
  | none => (st, none)
  | some s =>
    if s.toList.isEmpty then (st, some s)
    else restoreParsed (parse s) s st

/-! ## Concrete fixtures for closed witnesses and counterexamples -/

/-- A row set grouping column `"g"`, measure `"m"`: one row whose measure
fails numeric coercion. -/
def rowsEmptyPool : List DataRow := [[("g", .str "a"), ("m", .str "x")]]

/-- Frequency rows whose values appear in the order b, b, a. -/
def rowsFreqBBA : List DataRow := [[("c", .str "b")], [("c", .str "b")], [("c", .str "a")]]

/-- The same multiset of rows in the order a, b, b. -/
def rowsFreqABB : List DataRow := [[("c", .str "a")], [("c", .str "b")], [("c", .str "b")]]

/-- A config with id 1. -/
def cfgAlpha : ChartConfig := ⟨"1", "Alpha", .Bar, "x", "y", .Sum⟩

/-- A different config carrying the same id 1. -/
def cfgBeta : ChartConfig := ⟨"1", "Beta", .Line, "x", "y", .Count⟩

/-- Two distinct configs sharing the title A. -/
def cfgTieA : ChartConfig := ⟨"1", "A", .Bar, "x", "y", .Count⟩

/-- Second config with title A (different id and type). -/
def cfgTieB : ChartConfig := ⟨"2", "A", .Line, "x", "y", .Sum⟩

/-- The string group key stored in an output row at column `g` (empty when
the cell is absent or not a string). -/
def keyCellStr (g : String) (r : DataRow) : String :=
  match getCell r g with
  | some (.str s) => s
  | _ => ""

/-- One row with group a and the numeric measure 1. -/
def rowsOnePool : List DataRow := [[("g", .str "a"), ("m", .num 1)]]

/-- A row in group a whose measure value fails numeric coercion. -/
def rowBadM : DataRow := [("g", .str "a"), ("m", .str "x")]

/-- Two rows in groups b and a with numeric measures. -/
def rowsTwoGroups : List DataRow :=
  [[("g", .str "b"), ("m", .num 2)], [("g", .str "a"), ("m", .num 1)]]

/-- The same two rows in the opposite order. -/
def rowsTwoGroupsPerm : List DataRow :=
  [[("g", .str "a"), ("m", .num 1)], [("g", .str "b"), ("m", .num 2)]]

/-- A single frequency row whose cell stringifies to the literal key
`__proto__`: `counts["__proto__"]++` hits the accessor inherited from
`Object.prototype`, so the assignment is a silent no-op on a plain object
and the row is never counted. -/
def rowProto : List DataRow := [[("c", .str "__proto__")]]

/-- A row whose group value stringifies to `toString`: `grouped["toString"]`
finds the inherited function (truthy, so no array is installed) and
`.push` on it throws a `TypeError`. -/
def rowsThrow : List DataRow := [[("g", .str "toString"), ("m", .num 1)]]

/-- A config with an id matching nothing in the fixtures. -/
def cfgNine : ChartConfig := ⟨"9", "New", .Pie, "x", "y", .Average⟩

/-- A controller state that is not in the restored state. -/
def stFresh : AppState :=
  ⟨none, [], [cfgAlpha], "Dash", "old.csv", false⟩

/-- A restored controller state whose file name matches `"data.csv"`. -/
def stRestored : AppState :=
  ⟨none, [], [cfgAlpha], "Dash", "data.csv", true⟩

/-! ## Order lemmas for the string comparator -/

theorem lexCmp_self (l : List Char) : lexCmp l l = 0 := by
  induction l with
  | nil => rfl
  | cons a as ih => simp [lexCmp, ih]

theorem lexCmp_swap (x y : List Char) : lexCmp y x = -lexCmp x y := by
  induction x generalizing y with
  | nil => cases y <;> rfl
  | cons a as ih =>
    cases y with
    | nil => rfl
    | cons b bs =>
      by_cases hab : a < b
      · have : ¬ b < a := lt_asymm hab
        simp [lexCmp, hab, this]
      · by_cases hba : b < a
        · simp [lexCmp, hab, hba]
        · simp [lexCmp, hab, hba, ih]

theorem lexCmp_eq_zero_iff {x y : List Char} : lexCmp x y = 0 ↔ x = y := by
  constructor
  · intro h
    induction x generalizing y with
    | nil => cases y with
      | nil => rfl
      | cons b bs => simp [lexCmp] at h
    | cons a as ih =>
      cases y with
      | nil => simp [lexCmp] at h
      | cons b bs =>
        by_cases hab : a < b
        · simp [lexCmp, hab] at h
        · by_cases hba : b < a
          · simp [lexCmp, hab, hba] at h
          · have hEq : a = b := le_antisymm (not_lt.mp hba) (not_lt.mp hab)
            simp [lexCmp, hab, hba] at h
            rw [hEq, ih h]
  · rintro rfl; exact lexCmp_self x

theorem lexCmp_le_trans {x y z : List Char}
    (h₁ : lexCmp x y ≤ 0) (h₂ : lexCmp y z ≤ 0) : lexCmp x z ≤ 0 := by
  induction x generalizing y z with
  | nil => cases z <;> simp [lexCmp]
  | cons a as ih =>
    cases y with
    | nil => simp [lexCmp] at h₁
    | cons b bs =>
      cases z with
      | nil => simp [lexCmp] at h₂
      | cons c cs =>
        by_cases hab : a < b
        · -- a < b and b ≤ c, so a < c
          have hbc : ¬ c < b := by
            intro hcb
            by_cases hb : b < c
            · exact absurd (lt_trans hb hcb) (lt_irrefl b)
            · simp [lexCmp, hb, hcb] at h₂
          by_cases hbcs : b < c
          · have hac : a < c := lt_trans hab hbcs
            simp [lexCmp, hac]
          · have hEq : b = c := le_antisymm (not_lt.mp hbc) (not_lt.mp hbcs)
            have hac : a < c := hEq ▸ hab
            simp [lexCmp, hac]
        · by_cases hba : b < a
          · simp [lexCmp, hab, hba] at h₁
          · have hEq : a = b := le_antisymm (not_lt.mp hba) (not_lt.mp hab)
            subst hEq
            simp only [lexCmp, lt_irrefl, if_false, ite_false, if_neg] at h₁
            by_cases hac : a < c
            · simp [lexCmp, hac]
            · by_cases hca : c < a
              · simp [lexCmp, hca, hac] at h₂
              · simp only [lexCmp, hac, hca, if_false, ite_false, if_neg] at h₂ ⊢
                exact ih h₁ h₂

theorem strCmpInt_swap (x y : String) : strCmpInt y x = -strCmpInt x y :=
  lexCmp_swap x.toList y.toList

theorem strCmpInt_eq_zero_iff {x y : String} : strCmpInt x y = 0 ↔ x = y := by
  unfold strCmpInt
  rw [lexCmp_eq_zero_iff]
  constructor
  · intro h
    cases x; cases y
    exact congrArg String.mk h
  · rintro rfl; rfl

theorem strCmpInt_le_trans {x y z : String}
    (h₁ : strCmpInt x y ≤ 0) (h₂ : strCmpInt y z ≤ 0) : strCmpInt x z ≤ 0 :=
  lexCmp_le_trans h₁ h₂

theorem strCmpInt_total (x y : String) : strCmpInt x y ≤ 0 ∨ strCmpInt y x ≤ 0 := by
  rcases le_or_lt (strCmpInt x y) 0 with h | h
  · exact Or.inl h
  · right; rw [strCmpInt_swap]; omega

theorem strCmpInt_antisymm {x y : String}
    (h₁ : strCmpInt x y ≤ 0) (h₂ : strCmpInt y x ≤ 0) : x = y := by
  rw [strCmpInt_swap] at h₂
  exact strCmpInt_eq_zero_iff.mp (by omega)

/-! ## Lemmas about the stable comparator sort -/

theorem jsInsert_perm {α : Type} (c : α → α → Int) (a : α) (l : List α) :
    List.Perm (jsInsert c a l) (a :: l) := by
  induction l with
  | nil => exact List.Perm.refl _
  | cons b t ih =>
    by_cases h : c a b ≤ 0
    · simp [jsInsert, h]
    · simp only [jsInsert, h, if_neg, ite_false]
      exact (ih.cons b).trans (List.Perm.swap a b t)

theorem jsSort_perm {α : Type} (c : α → α → Int) (l : List α) :
    List.Perm (jsSort c l) l := by
  induction l with
  | nil => exact List.Perm.refl _
  | cons a t ih => exact ((jsInsert_perm c a _).trans (ih.cons a))

theorem mem_jsInsert {α : Type} {c : α → α → Int} {a x : α} {l : List α} :
    x ∈ jsInsert c a l ↔ x = a ∨ x ∈ l := by
  rw [(jsInsert_perm c a l).mem_iff]
  simp

theorem jsInsert_pairwise {α : Type} {c : α → α → Int}
    (htr : ∀ x y z, c x y ≤ 0 → c y z ≤ 0 → c x z ≤ 0)
    (hto : ∀ x y, c x y ≤ 0 ∨ c y x ≤ 0)
    {a : α} {l : List α} (h : l.Pairwise (fun x y => c x y ≤ 0)) :
    (jsInsert c a l).Pairwise (fun x y => c x y ≤ 0) := by
  induction l with
  | nil => simp [jsInsert]
  | cons b t ih =>
    rw [List.pairwise_cons] at h
    obtain ⟨hb, ht⟩ := h
    by_cases hab : c a b ≤ 0
    · simp only [jsInsert, hab, if_pos, ite_true]
      refine List.pairwise_cons.mpr ⟨?_, List.pairwise_cons.mpr ⟨hb, ht⟩⟩
      intro y hy
      rcases List.mem_cons.mp hy with rfl | hyt
      · exact hab
      · exact htr a b y hab (hb y hyt)
    · simp only [jsInsert, hab, if_neg, ite_false]
      refine List.pairwise_cons.mpr ⟨?_, ih ht⟩
      intro y hy
      rcases mem_jsInsert.mp hy with rfl | hyt
      · rcases hto y b with h' | h'
        · exact absurd h' hab
        · exact h'
      · exact hb y hyt

theorem jsSort_pairwise {α : Type} {c : α → α → Int}
    (htr : ∀ x y z, c x y ≤ 0 → c y z ≤ 0 → c x z ≤ 0)
    (hto : ∀ x y, c x y ≤ 0 ∨ c y x ≤ 0) (l : List α) :
    (jsSort c l).Pairwise (fun x y => c x y ≤ 0) := by
  induction l with
  | nil => simp [jsSort]
  | cons a t ih => exact jsInsert_pairwise htr hto ih

/-- Two sorted lists that are permutations of each other coincide, given
antisymmetry of the sorting relation. -/
theorem sorted_perm_eq {α : Type} {R : α → α → Prop}
    (hanti : ∀ x y, R x y → R y x → x = y) :
    ∀ {l₁ l₂ : List α}, List.Perm l₁ l₂ → l₁.Pairwise R → l₂.Pairwise R →
      l₁ = l₂ := by
  intro l₁
  induction l₁ with
  | nil => intro l₂ h _ _; exact (h.nil_eq).symm ▸ rfl
  | cons a t₁ ih =>
    intro l₂ h s₁ s₂
    cases l₂ with
    | nil => exact absurd h.symm.nil_eq (by simp)
    | cons b t₂ =>
      have hmem_a : a ∈ b :: t₂ := h.mem_iff.mp (List.mem_cons_self a t₁)
      have hmem_b : b ∈ a :: t₁ := h.mem_iff.mpr (List.mem_cons_self b t₂)
      have hab : a = b := by
        rcases List.mem_cons.mp hmem_a with rfl | ha₂
        · rfl
        · rcases List.mem_cons.mp hmem_b with rfl | hb₁
          · rfl
          · exact hanti a b ((List.pairwise_cons.mp s₁).1 b hb₁)
              ((List.pairwise_cons.mp s₂).1 a ha₂)
      subst hab
      have ht : List.Perm t₁ t₂ := h.cons_inv
      rw [ih ht (List.pairwise_cons.mp s₁).2 (List.pairwise_cons.mp s₂).2]

theorem jsInsert_map {α β : Type} {c : β → β → Int} {c' : α → α → Int}
    {f : α → β} (hc : ∀ x y, c (f x) (f y) = c' x y) (a : α) (l : List α) :
    jsInsert c (f a) (l.map f) = (jsInsert c' a l).map f := by
  induction l with
  | nil => rfl
  | cons b t ih =>
    by_cases h : c' a b ≤ 0
    · simp [jsInsert, hc, h]
    · simp [jsInsert, hc, h, ih]

theorem jsSort_map {α β : Type} {c : β → β → Int} {c' : α → α → Int}
    {f : α → β} (hc : ∀ x y, c (f x) (f y) = c' x y) (l : List α) :
    jsSort c (l.map f) = (jsSort c' l).map f := by
  induction l with
  | nil => rfl
  | cons a t ih => simp only [jsSort, List.map_cons, List.foldr_cons]
                   rw [show (List.foldr (jsInsert c) [] (t.map f)) = jsSort c (t.map f) from rfl,
                       ih, jsInsert_map hc]
                   rfl

/-- If `a` compares strictly greater than everything in `l`, insertion puts
it at the end. -/
theorem jsInsert_eq_append {α : Type} {c : α → α → Int} {a : α} {l : List α}
    (h : ∀ b ∈ l, ¬ c a b ≤ 0) : jsInsert c a l = l ++ [a] := by
  induction l with
  | nil => rfl
  | cons b t ih =>
    have hb := h b (List.mem_cons_self b t)
    simp only [jsInsert, hb, if_neg, ite_false, List.cons_append]
    rw [ih (fun x hx => h x (List.mem_cons_of_mem b hx))]

/-! ## Association-list lemmas -/

theorem find_isSome_iff_mem {α : Type} {l : List (String × α)} {k : String} :
    ((l.find? (fun e => e.1 == k)).isSome = true) ↔ k ∈ l.map Prod.fst := by
  induction l with
  | nil => simp
  | cons e t ih =>
    by_cases h : e.1 = k
    · simp [List.find?, h]
    · have : (e.1 == k) = false := by simpa using h
      simp [List.find?, this, ih, Ne.symm h]

theorem alookup_eq_none_iff {α : Type} {l : List (String × α)} {k : String} :
    alookup l k = none ↔ k ∉ l.map Prod.fst := by
  rw [← find_isSome_iff_mem]
  unfold alookup
  cases h : l.find? (fun e => e.1 == k) <;> simp [h]

theorem alookup_append {α : Type} (l l' : List (String × α)) (k : String) :
    alookup (l ++ l') k =
      match alookup l k with
      | some v => some v
      | none => alookup l' k := by
  induction l with
  | nil => simp [alookup]
  | cons e t ih =>
    by_cases h : e.1 = k
    · simp [alookup, List.find?, h]
    · have hb : (e.1 == k) = false := by simpa using h
      simpa [alookup, List.find?, hb] using ih

theorem map_fst_update {α : Type} (l : List (String × α)) (k : String)
    (f : α → α) :
    (l.map (fun e => if e.1 == k then (e.1, f e.2) else e)).map Prod.fst =
      l.map Prod.fst := by
  induction l with
  | nil => rfl
  | cons e t ih =>
    by_cases h : e.1 = k <;>
      · simp [h, ih]
        intro a b _
        by_cases hak : a = k <;> simp [hak]

theorem alookup_update {α : Type} (l : List (String × α)) (k k' : String)
    (f : α → α) :
    alookup (l.map (fun e => if e.1 == k then (e.1, f e.2) else e)) k' =
      if k' = k then (alookup l k).map f else alookup l k' := by
  induction l with
  | nil => simp [alookup]
  | cons e t ih =>
    by_cases hek : e.1 = k
    · by_cases hk' : k' = k
      · subst hk'; subst hek
        simp [alookup, List.find?]
      · have h1 : (e.1 == k) = true := by simpa using hek
        have h2 : (e.1 == k') = false := by
          simp only [beq_eq_false_iff_ne, ne_eq]
          intro h; exact hk' (h ▸ hek)
        simp only [alookup, List.map_cons, List.find?, h1, if_pos, ite_true] at *
        simp only [h2] at *
        simpa [alookup, hk'] using ih
    · have h1 : (e.1 == k) = false := by simpa using hek
      by_cases hek' : e.1 = k'
      · have hk' : ¬ k' = k := by intro h; exact hek (hek' ▸ h)
        have h2 : (e.1 == k') = true := by simpa using hek'
        simp [alookup, List.find?, h1, h2, hk']
      · have h2 : (e.1 == k') = false := by simpa using hek'
        simpa [alookup, List.find?, h1, h2] using ih

theorem alookup_cons {α : Type} (e : String × α) (t : List (String × α))
    (k : String) :
    alookup (e :: t) k = if e.1 = k then some e.2 else alookup t k := by
  by_cases h : e.1 = k
  · simp [alookup, List.find?, h]
  · have hb : (e.1 == k) = false := by simpa using h
    simp [alookup, List.find?, hb, h]

/-! ## Key-creation order lemmas -/

theorem mem_insertKey {ks : List String} {k x : String} :
    x ∈ insertKey ks k ↔ x ∈ ks ∨ x = k := by
  unfold insertKey
  by_cases h : k ∈ ks
  · simp only [h, if_pos, ite_true]
    constructor
    · exact Or.inl
    · rintro (hx | rfl)
      · exact hx
      · exact h
  · simp [h]

theorem mem_insKeys {ks acc : List String} {x : String} :
    x ∈ insKeys acc ks ↔ x ∈ acc ∨ x ∈ ks := by
  induction ks generalizing acc with
  | nil => simp [insKeys]
  | cons k t ih =>
    show x ∈ insKeys (insertKey acc k) t ↔ _
    rw [ih, mem_insertKey]
    constructor
    · rintro ((h | rfl) | h)
      · exact Or.inl h
      · exact Or.inr (List.mem_cons_self _ _)
      · exact Or.inr (List.mem_cons_of_mem _ h)
    · rintro (h | h)
      · exact Or.inl (Or.inl h)
      · rcases List.mem_cons.mp h with rfl | h
        · exact Or.inl (Or.inr rfl)
        · exact Or.inr h

theorem insertKey_nodup {ks : List String} {k : String} (h : ks.Nodup) :
    (insertKey ks k).Nodup := by
  unfold insertKey
  by_cases hk : k ∈ ks
  · simpa [hk] using h
  · simp only [hk, if_neg, ite_false]
    exact List.Nodup.append h (List.nodup_singleton k) (by simpa using hk)

theorem insKeys_nodup {ks acc : List String} (h : acc.Nodup) :
    (insKeys acc ks).Nodup := by
  induction ks generalizing acc with
  | nil => exact h
  | cons k t ih => exact ih (insertKey_nodup h)

/-! ## Bridges from the imperative loops to declarative descriptions -/

/-- The numeric values a list of (key, coerced value) items contributes to
group `k`. -/
def itemsPool (items : List (String × Option ℚ)) (k : String) : List ℚ :=
  items.filterMap (fun it => if it.1 == k then it.2 else none)

theorem itemsPool_cons (k₀ : String) (v : Option ℚ)
    (items : List (String × Option ℚ)) (k : String) :
    itemsPool ((k₀, v) :: items) k =
      (if k₀ = k then v.toList else []) ++ itemsPool items k := by
  by_cases h : k₀ = k
  · cases v <;> simp [itemsPool, h, List.filterMap_cons, Option.toList]
  · have hb : (k₀ == k) = false := by simpa using h
    simp [itemsPool, h, hb, List.filterMap_cons]

theorem alookup_nil {α : Type} (k : String) :
    alookup ([] : List (String × α)) k = none := rfl

theorem updEntry_map_fst {α : Type} (l : List (String × α)) (k : String)
    (f : α → α) : (updEntry k f l).map Prod.fst = l.map Prod.fst :=
  map_fst_update l k f

theorem alookup_updEntry {α : Type} (l : List (String × α)) (k k' : String)
    (f : α → α) :
    alookup (updEntry k f l) k' =
      if k' = k then (alookup l k).map f else alookup l k' :=
  alookup_update l k k' f

theorem cleanBump_map_fst (acc : List (String × ℕ)) (k : String) :
    (cleanBump acc k).map Prod.fst = insertKey (acc.map Prod.fst) k := by
  unfold cleanBump insertKey
  by_cases hm : k ∈ acc.map Prod.fst
  · rw [if_pos (find_isSome_iff_mem.mpr hm), if_pos hm, updEntry_map_fst]
  · rw [if_neg (by rw [find_isSome_iff_mem]; exact hm), if_neg hm,
      List.map_append]
    rfl

theorem cleanBump_alookup_self (acc : List (String × ℕ)) (k : String) :
    alookup (cleanBump acc k) k = some ((alookup acc k).getD 0 + 1) := by
  unfold cleanBump
  by_cases hm : k ∈ acc.map Prod.fst
  · rw [if_pos (find_isSome_iff_mem.mpr hm), alookup_updEntry]
    cases h : alookup acc k with
    | some n => simp [h]
    | none => exact absurd (alookup_eq_none_iff.mp h) (by simpa using hm)
  · rw [if_neg (by rw [find_isSome_iff_mem]; exact hm), alookup_append,
      alookup_eq_none_iff.mpr hm]
    simp [alookup_cons]

theorem cleanBump_alookup_ne (acc : List (String × ℕ)) (k k' : String)
    (h : k' ≠ k) : alookup (cleanBump acc k) k' = alookup acc k' := by
  unfold cleanBump
  by_cases hm : k ∈ acc.map Prod.fst
  · rw [if_pos (find_isSome_iff_mem.mpr hm), alookup_updEntry, if_neg h]
  · rw [if_neg (by rw [find_isSome_iff_mem]; exact hm), alookup_append]
    cases hl : alookup acc k' with
    | some v => simp
    | none => simp [alookup_cons, alookup_nil, Ne.symm h]

theorem bumpFold_alookup (ks : List String) :
    ∀ (acc : List (String × ℕ)) (k : String),
      alookup (ks.foldl cleanBump acc) k =
        match alookup acc k with
        | some n => some (n + ks.count k)
        | none => if k ∈ ks then some (ks.count k) else none := by
  induction ks with
  | nil =>
    intro acc k
    cases h : alookup acc k <;> simp [h]
  | cons kh t ih =>
    intro acc k
    show alookup (t.foldl cleanBump (cleanBump acc kh)) k = _
    rw [ih]
    by_cases hk : k = kh
    · subst hk
      rw [cleanBump_alookup_self]
      have hc : (k :: t).count k = t.count k + 1 := by
        simp [List.count_cons]
      cases h : alookup acc k with
      | some n => simp [h, hc]; omega
      | none => simp [h, hc]; omega
    · rw [cleanBump_alookup_ne acc kh k hk]
      have hc : (kh :: t).count k = t.count k := by
        simp [List.count_cons, Ne.symm hk]
      cases h : alookup acc k with
      | some n => simp [h, hc]
      | none => simp [h, hc, hk, Ne.symm hk]

theorem bumpFold_map_fst (ks : List String) :
    ∀ acc : List (String × ℕ),
      (ks.foldl cleanBump acc).map Prod.fst = insKeys (acc.map Prod.fst) ks := by
  induction ks with
  | nil => intro acc; rfl
  | cons kh t ih =>
    intro acc
    show (t.foldl cleanBump (cleanBump acc kh)).map Prod.fst = _
    rw [ih, cleanBump_map_fst]
    rfl

theorem cleanEnsure_map_fst (acc : List (String × List ℚ)) (k : String) :
    (cleanEnsure acc k).map Prod.fst = insertKey (acc.map Prod.fst) k := by
  unfold cleanEnsure insertKey
  by_cases hm : k ∈ acc.map Prod.fst
  · rw [if_pos (find_isSome_iff_mem.mpr hm), if_pos hm]
  · rw [if_neg (by rw [find_isSome_iff_mem]; exact hm), if_neg hm,
      List.map_append]
    rfl

theorem alookup_cleanEnsure_self (acc : List (String × List ℚ)) (k : String) :
    alookup (cleanEnsure acc k) k = some ((alookup acc k).getD []) := by
  unfold cleanEnsure
  by_cases hm : k ∈ acc.map Prod.fst
  · rw [if_pos (find_isSome_iff_mem.mpr hm)]
    cases h : alookup acc k with
    | some vs => simp [h]
    | none => exact absurd (alookup_eq_none_iff.mp h) (by simpa using hm)
  · rw [if_neg (by rw [find_isSome_iff_mem]; exact hm), alookup_append,
      alookup_eq_none_iff.mpr hm]
    simp [alookup_cons]

theorem alookup_cleanEnsure_ne (acc : List (String × List ℚ)) (k k' : String)
    (h : k' ≠ k) : alookup (cleanEnsure acc k) k' = alookup acc k' := by
  unfold cleanEnsure
  by_cases hm : k ∈ acc.map Prod.fst
  · rw [if_pos (find_isSome_iff_mem.mpr hm)]
  · rw [if_neg (by rw [find_isSome_iff_mem]; exact hm), alookup_append]
    cases hl : alookup acc k' with
    | some v => simp
    | none => simp [alookup_cons, alookup_nil, Ne.symm h]

theorem cleanGroupItem_map_fst (acc : List (String × List ℚ)) (kh : String)
    (v : Option ℚ) :
    (cleanGroupItem acc (kh, v)).map Prod.fst = insertKey (acc.map Prod.fst) kh := by
  cases v with
  | some q =>
    show (updEntry kh (fun vs => vs ++ [q]) (cleanEnsure acc kh)).map Prod.fst = _
    rw [updEntry_map_fst, cleanEnsure_map_fst]
  | none => exact cleanEnsure_map_fst acc kh

theorem cleanGroupItem_alookup_self (acc : List (String × List ℚ)) (kh : String)
    (v : Option ℚ) :
    alookup (cleanGroupItem acc (kh, v)) kh =
      some ((alookup acc kh).getD [] ++ v.toList) := by
  cases v with
  | some q =>
    show alookup (updEntry kh (fun vs => vs ++ [q]) (cleanEnsure acc kh)) kh = _
    rw [alookup_updEntry, if_pos rfl, alookup_cleanEnsure_self]
    simp [Option.toList]
  | none =>
    show alookup (cleanEnsure acc kh) kh = _
    rw [alookup_cleanEnsure_self]
    simp [Option.toList]

theorem cleanGroupItem_alookup_ne (acc : List (String × List ℚ)) (kh : String)
    (v : Option ℚ) (k' : String) (h : k' ≠ kh) :
    alookup (cleanGroupItem acc (kh, v)) k' = alookup acc k' := by
  cases v with
  | some q =>
    show alookup (updEntry kh (fun vs => vs ++ [q]) (cleanEnsure acc kh)) k' = _
    rw [alookup_updEntry, if_neg h, alookup_cleanEnsure_ne acc kh k' h]
  | none => exact alookup_cleanEnsure_ne acc kh k' h

theorem groupFold_alookup (items : List (String × Option ℚ)) :
    ∀ (acc : List (String × List ℚ)) (k : String),
      alookup (items.foldl cleanGroupItem acc) k =
        match alookup acc k with
        | some vs => some (vs ++ itemsPool items k)
        | none =>
          if k ∈ items.map Prod.fst then some (itemsPool items k) else none := by
  induction items with
  | nil =>
    intro acc k
    cases h : alookup acc k <;> simp [h, itemsPool]
  | cons it t ih =>
    obtain ⟨kh, v⟩ := it
    intro acc k
    show alookup (t.foldl cleanGroupItem (cleanGroupItem acc (kh, v))) k = _
    rw [ih]
    by_cases hk : k = kh
    · subst hk
      rw [cleanGroupItem_alookup_self]
      rw [itemsPool_cons]
      cases h : alookup acc k with
      | some vs => simp [h, List.append_assoc]
      | none => simp [h]
    · rw [cleanGroupItem_alookup_ne acc kh v k hk]
      have hp : itemsPool ((kh, v) :: t) k = itemsPool t k := by
        rw [itemsPool_cons]
        simp [Ne.symm hk]
      cases h : alookup acc k with
      | some vs => simp [h, hp]
      | none =>
        simp only [h, hp, List.map_cons, List.mem_cons]
        by_cases hm : k ∈ t.map Prod.fst
        · simp [hm]
        · simp [hm, hk]

theorem groupFold_map_fst (items : List (String × Option ℚ)) :
    ∀ acc : List (String × List ℚ),
      (items.foldl cleanGroupItem acc).map Prod.fst =
        insKeys (acc.map Prod.fst) (items.map Prod.fst) := by
  induction items with
  | nil => intro acc; rfl
  | cons it t ih =>
    obtain ⟨kh, v⟩ := it
    intro acc
    show (t.foldl cleanGroupItem (cleanGroupItem acc (kh, v))).map Prod.fst = _
    rw [ih, cleanGroupItem_map_fst]
    rfl

/-! ## Declarative descriptions of the two aggregation paths -/

theorem jsObjectKeys_perm (ks : List String) :
    List.Perm (jsObjectKeys ks) ks :=
  ((jsSort_perm idxCmp (ks.filter isArrayIndex)).append_right _).trans
    (List.filter_append_perm _ ks)

theorem mem_jsObjectKeys {ks : List String} {x : String} :
    x ∈ jsObjectKeys ks ↔ x ∈ ks :=
  (jsObjectKeys_perm ks).mem_iff

theorem jsObjectKeys_nodup {ks : List String} (h : ks.Nodup) :
    (jsObjectKeys ks).Nodup :=
  (jsObjectKeys_perm ks).nodup_iff.mpr h

theorem cleanCounts_eq_fold (p : JsPrims) (g : String) (rows : List DataRow) :
    cleanCounts p g rows = (rows.map (strKey p g)).foldl cleanBump [] :=
  (List.foldl_map (strKey p g) cleanBump rows []).symm

theorem cleanCounts_map_fst (p : JsPrims) (g : String) (rows : List DataRow) :
    (cleanCounts p g rows).map Prod.fst = rowKeys p g rows := by
  rw [cleanCounts_eq_fold, bumpFold_map_fst]
  rfl

theorem cleanCounts_alookup (p : JsPrims) (g : String) (rows : List DataRow)
    (k : String) :
    alookup (cleanCounts p g rows) k =
      if k ∈ rowKeys p g rows then some (freqCount p g rows k) else none := by
  rw [cleanCounts_eq_fold, bumpFold_alookup, alookup_nil]
  have hmem : k ∈ rowKeys p g rows ↔ k ∈ rows.map (strKey p g) := by
    unfold rowKeys
    rw [mem_insKeys]
    simp
  by_cases hm : k ∈ rows.map (strKey p g)
  · simp only [hm, if_pos, ite_true, hmem.mpr hm]
    rfl
  · simp only [hm, if_neg, ite_false]
    rw [if_neg (fun h => hm (hmem.mp h))]

theorem rowKeys_nodup (p : JsPrims) (g : String) (rows : List DataRow) :
    (rowKeys p g rows).Nodup :=
  insKeys_nodup List.nodup_nil

theorem mem_rowKeys {p : JsPrims} {g : String} {rows : List DataRow}
    {k : String} : k ∈ rowKeys p g rows ↔ k ∈ rows.map (strKey p g) := by
  unfold rowKeys
  rw [mem_insKeys]
  simp

theorem cleanGroups_eq_fold (p : JsPrims) (g m : String) (rows : List DataRow) :
    cleanGroups p g m rows =
      (rows.map (fun r => (strKey p g r, jsToNumber p (getCell r m)))).foldl
        cleanGroupItem [] :=
  (List.foldl_map _ cleanGroupItem rows []).symm

theorem cleanGroups_map_fst (p : JsPrims) (g m : String) (rows : List DataRow) :
    (cleanGroups p g m rows).map Prod.fst = rowKeys p g rows := by
  rw [cleanGroups_eq_fold, groupFold_map_fst]
  unfold rowKeys
  congr 1
  rw [List.map_map]
  rfl

theorem cleanGroups_alookup (p : JsPrims) (g m : String) (rows : List DataRow)
    (k : String) :
    alookup (cleanGroups p g m rows) k =
      if k ∈ rowKeys p g rows then some (poolOf p g m rows k) else none := by
  rw [cleanGroups_eq_fold, groupFold_alookup, alookup_nil]
  have hpool :
      itemsPool (rows.map (fun r => (strKey p g r, jsToNumber p (getCell r m)))) k =
        poolOf p g m rows k := by
    unfold itemsPool poolOf
    rw [List.filterMap_map]
    rfl
  have hmm :
      (rows.map (fun r => (strKey p g r, jsToNumber p (getCell r m)))).map Prod.fst =
        rows.map (strKey p g) := by
    rw [List.map_map]
    rfl
  rw [hpool, hmm]
  by_cases hm : k ∈ rows.map (strKey p g)
  · rw [if_pos hm, if_pos (mem_rowKeys.mpr hm)]
  · rw [if_neg hm, if_neg (fun h => hm (mem_rowKeys.mp h))]

theorem objMk_pair (g m : String) (v₁ v₂ : JsVal) :
    objMk [(g, v₁), (m, v₂)] =
      if g = m then [(g, v₂)] else [(g, v₁), (m, v₂)] := by
  show objInsert (objInsert [] g v₁) m v₂ = _
  have h1 : objInsert [] g v₁ = [(g, v₁)] := rfl
  rw [h1]
  unfold objInsert
  by_cases h : g = m
  · subst h
    simp [List.find?, updEntry]
  · have hb : (g == m) = false := by simpa using h
    simp [List.find?, hb, h]

/-! ## The clean restriction of the prototype-aware loops -/

theorem embed_map_fst (l : List (String × ℕ)) :
    (embedCounts l).map Prod.fst = l.map Prod.fst := by
  unfold embedCounts
  rw [List.map_map]
  rfl

theorem embed_alookup (l : List (String × ℕ)) (k : String) :
    alookup (embedCounts l) k = (alookup l k).map JsCount.num := by
  induction l with
  | nil => rfl
  | cons e t ih =>
    by_cases h : e.1 = k
    · simp [embedCounts, alookup, List.find?, h]
    · have hb : (e.1 == k) = false := by simpa using h
      simpa [embedCounts, alookup, List.find?, hb] using ih

theorem updEntry_embed (l : List (String × ℕ)) (k : String)
    (f : JsCount → JsCount) (g : ℕ → ℕ)
    (hf : ∀ n, f (.num n) = .num (g n)) :
    updEntry k f (embedCounts l) = embedCounts (updEntry k g l) := by
  induction l with
  | nil => rfl
  | cons e t ih =>
    by_cases h : e.1 = k <;>
      simp [updEntry, embedCounts, h, hf] at ih ⊢ <;> exact ih

theorem alookup_isSome_eq (l : List (String × ℕ)) (k : String) :
    (alookup l k).isSome = (l.find? (fun e => e.1 == k)).isSome := by
  unfold alookup
  cases l.find? (fun e => e.1 == k) <;> rfl

/-- On a key that does not collide with `Object.prototype`, the faithful
frequency step is the clean counter bump. -/
theorem bumpItem_clean (p : JsPrims) (acc : List (String × ℕ)) (k : String)
    (hk : k ∉ objProtoNames) :
    bumpItem p (embedCounts acc) k = embedCounts (cleanBump acc k) := by
  unfold bumpItem cleanBump
  split
  case _ v heq =>
    rw [embed_alookup] at heq
    have hfind : (acc.find? (fun e => e.1 == k)).isSome = true := by
      rw [← alookup_isSome_eq]
      cases hacc : alookup acc k
      · rw [hacc] at heq; exact absurd heq (by simp)
      · rfl
    rw [if_pos hfind]
    exact updEntry_embed acc k _ (fun n => n + 1) (fun _ => rfl)
  case _ heq =>
    rw [embed_alookup] at heq
    have hfind : ¬ (acc.find? (fun e => e.1 == k)).isSome = true := by
      rw [← alookup_isSome_eq]
      cases hacc : alookup acc k
      · simp
      · rw [hacc] at heq; exact absurd heq (by simp)
    have h1 : ¬ k = "__proto__" := fun he =>
      hk (he ▸ (by decide : ("__proto__" : String) ∈ objProtoNames))
    rw [if_neg h1, if_neg hk, if_neg hfind]
    unfold embedCounts
    rw [List.map_append]
    rfl

theorem buildCounts_clean (p : JsPrims) (g : String) (rows : List DataRow)
    (hcl : ∀ k ∈ rows.map (strKey p g), k ∉ objProtoNames) :
    buildCounts p g rows = embedCounts (cleanCounts p g rows) := by
  have main : ∀ (rs : List DataRow) (acc : List (String × ℕ)),
      (∀ k ∈ rs.map (strKey p g), k ∉ objProtoNames) →
      rs.foldl (fun a r => bumpItem p a (strKey p g r)) (embedCounts acc) =
        embedCounts (rs.foldl (fun a r => cleanBump a (strKey p g r)) acc) := by
    intro rs
    induction rs with
    | nil => intro acc _; rfl
    | cons r rt ih =>
      intro acc hcl2
      show rt.foldl _ (bumpItem p (embedCounts acc) (strKey p g r)) = _
      rw [bumpItem_clean p acc _ (hcl2 _ (by simp))]
      exact ih _ (fun k hk => hcl2 k (by simp [hk]))
  exact main rows [] hcl

/-- On a key that does not collide with `Object.prototype`, the faithful
grouping step succeeds and is the clean ensure-then-push step. -/
theorem groupStep_clean (acc : List (String × List ℚ)) (kh : String)
    (v : Option ℚ) (hk : kh ∉ objProtoNames) :
    groupStep acc (kh, v) = .ok (cleanGroupItem acc (kh, v)) := by
  unfold groupStep cleanGroupItem cleanEnsure
  cases v with
  | some q =>
    by_cases hf : (acc.find? (fun e => e.1 == kh)).isSome = true
    · rw [if_pos hf, if_pos hf]
    · rw [if_neg hf, if_neg hk, if_neg hf]
  | none =>
    by_cases hf : (acc.find? (fun e => e.1 == kh)).isSome = true
    · rw [if_pos hf, if_pos hf]
    · rw [if_neg hf, if_neg hk, if_neg hf]

theorem buildGroups_clean (p : JsPrims) (g m : String) (rows : List DataRow)
    (hcl : ∀ k ∈ rows.map (strKey p g), k ∉ objProtoNames) :
    buildGroups p g m rows = .ok (cleanGroups p g m rows) := by
  have main : ∀ (rs : List DataRow) (acc : List (String × List ℚ)),
      (∀ k ∈ rs.map (strKey p g), k ∉ objProtoNames) →
      rs.foldlM (fun a r =>
          groupStep a (strKey p g r, jsToNumber p (getCell r m))) acc =
        .ok (rs.foldl (fun a r =>
          cleanGroupItem a (strKey p g r, jsToNumber p (getCell r m))) acc) := by
    intro rs
    induction rs with
    | nil => intro acc _; rfl
    | cons r rt ih =>
      intro acc hcl2
      rw [List.foldlM_cons, groupStep_clean acc _ _ (hcl2 _ (by simp))]
      exact ih _ (fun k hk => hcl2 k (by simp [hk]))
  exact main rows [] hcl

/-! ## Declarative descriptions of the aggregation paths on clean inputs -/

/-- The frequency special case of `aggregateData` (`Count` with
`groupBy == valueColumn`) on rows none of whose stringified values collide
with `Object.prototype`: one output row per distinct stringified value, in
JS object enumeration order, each row being the object literal
`{[g]: key, [g]: count}` — whose second computed property overwrites the
first, leaving only the count. -/
theorem aggregateData_freq (p : JsPrims) (g : String) (rows : List DataRow)
    (hne : rows ≠ [])
    (hcl : ∀ k ∈ rows.map (strKey p g), k ∉ objProtoNames) :
    aggregateData p (some rows) g g .Count =
      .ok ((jsObjectKeys (rowKeys p g rows)).map
        (fun k => [(g, JsVal.num (freqCount p g rows k))])) := by
  show aggregateDataRows p rows g g .Count = _
  unfold aggregateDataRows
  rw [if_neg (by simpa using hne), if_pos ⟨rfl, rfl⟩,
    buildCounts_clean p g rows hcl, embed_map_fst, cleanCounts_map_fst]
  congr 1
  apply List.map_congr_left
  intro k hk
  rw [embed_alookup, cleanCounts_alookup, if_pos (mem_jsObjectKeys.mp hk)]
  rw [objMk_pair, if_pos rfl]
  rfl

/-- The general case of `aggregateData` on clean rows, described
declaratively: one row per distinct stringified group key carrying the
reduction of that group's numeric pool, sorted by the final comparator.
No group is skipped: an empty pool still produces a row. -/
theorem aggregateData_general (p : JsPrims) (g m : String)
    (agg : AggregationType) (rows : List DataRow)
    (hc : ¬(agg = AggregationType.Count ∧ g = m)) (hne : rows ≠ [])
    (hcl : ∀ k ∈ rows.map (strKey p g), k ∉ objProtoNames) :
    aggregateData p (some rows) g m agg =
      .ok (jsSort (cmpRows p g)
        ((jsObjectKeys (rowKeys p g rows)).map (fun k =>
          objMk [(g, .str k),
                 (m, resultCell (resultVal agg (poolOf p g m rows k)))]))) := by
  show aggregateDataRows p rows g m agg = _
  unfold aggregateDataRows
  rw [if_neg (by simpa using hne), if_neg hc, buildGroups_clean p g m rows hcl]
  simp only [Except.map]
  rw [cleanGroups_map_fst]
  congr 2
  apply List.map_congr_left
  intro k hk
  rw [cleanGroups_alookup, if_pos (mem_jsObjectKeys.mp hk)]
  rfl

/-- The general case of the `part_001` variant on clean rows: identical to
`aggregateData_general` except keys with an empty numeric pool are filtered
out before the rows are built. -/
theorem aggregateDataVariant_general (p : JsPrims) (g m : String)
    (agg : AggregationType) (rows : List DataRow)
    (hc : ¬(agg = AggregationType.Count ∧ g = m)) (hne : rows ≠ [])
    (hcl : ∀ k ∈ rows.map (strKey p g), k ∉ objProtoNames) :
    aggregateDataVariant p (some rows) g m agg =
      .ok (jsSort (cmpRows p g)
        (((jsObjectKeys (rowKeys p g rows)).filter
            (fun k => !(poolOf p g m rows k).isEmpty)).map (fun k =>
          objMk [(g, .str k),
                 (m, resultCell (resultVal agg (poolOf p g m rows k)))]))) := by
  show aggregateDataVariantRows p rows g m agg = _
  unfold aggregateDataVariantRows
  rw [if_neg (by simpa using hne), if_neg hc, buildGroups_clean p g m rows hcl]
  simp only [Except.map]
  rw [cleanGroups_map_fst]
  congr 2
  have hfil :
      (jsObjectKeys (rowKeys p g rows)).filter
          (fun key => !((alookup (cleanGroups p g m rows) key).getD []).isEmpty) =
        (jsObjectKeys (rowKeys p g rows)).filter
          (fun k => !(poolOf p g m rows k).isEmpty) := by
    apply List.filter_congr
    intro k hk
    rw [cleanGroups_alookup, if_pos (mem_jsObjectKeys.mp hk)]
    rfl
  rw [hfil]
  apply List.map_congr_left
  intro k hk
  have hk2 : k ∈ jsObjectKeys (rowKeys p g rows) := List.mem_of_mem_filter hk
  rw [cleanGroups_alookup, if_pos (mem_jsObjectKeys.mp hk2)]
  rfl

/-! ## Claim theorems: controller operations -/

/-- C4 (counterexample): `handleSaveChart` does not key on id-existence.  In
create mode (`editingChart = null`) a config whose id already occurs in the
list is appended anyway (length 1 → 2), and in edit mode a config whose id
occurs nowhere leaves the length unchanged instead of appending. -/
theorem handleSaveChart_existing_id_appends :
    cfgBeta.id = cfgAlpha.id ∧
    (handleSaveChart none cfgBeta [cfgAlpha]).length = 2 ∧
    (cfgNine.id ∉ [cfgAlpha].map ChartConfig.id ∧
      (handleSaveChart (some cfgAlpha) cfgNine [cfgAlpha]).length = 1) := by
  decide

/-- C4 (amended): `handleSaveChart` branches on the edit-mode flag, not on
id presence: in edit mode the list keeps its length and every chart whose id
matches the saved config is replaced wholesale; in create mode the config is
appended (length + 1) regardless of whether its id already occurs. -/
theorem handleSaveChart_mode_semantics (e config : ChartConfig)
    (charts : List ChartConfig) :
    (handleSaveChart (some e) config charts).length = charts.length ∧
    handleSaveChart (some e) config charts =
      charts.map (fun chart => if chart.id = config.id then config else chart) ∧
    handleSaveChart none config charts = charts ++ [config] := by
  refine ⟨?_, rfl, rfl⟩
  simp [handleSaveChart]

/-- C7: `handleClearDashboard` empties the chart list and changes nothing
else — title, file name, data, columns and the restored flag are all
preserved. -/
theorem handleClearDashboard_spec (st : AppState) :
    (handleClearDashboard st).charts = [] ∧
    (handleClearDashboard st).dashboardTitle = st.dashboardTitle ∧
    (handleClearDashboard st).fileName = st.fileName ∧
    (handleClearDashboard st).data = st.data ∧
    (handleClearDashboard st).columns = st.columns ∧
    (handleClearDashboard st).isRestored = st.isRestored :=
  ⟨rfl, rfl, rfl, rfl, rfl, rfl⟩

/-- C6: `handleFileUpload` always stores the incoming file name and clears
the restored flag; it resets the chart list and derives the title from the
stripped file name exactly when the session was not restored or the name
differs; when the session was restored with the same file name the chart
list is preserved. -/
theorem handleFileUpload_spec (st : AppState) (fname : String)
    (jsonData : List DataRow) :
    (handleFileUpload st fname jsonData).fileName = fname ∧
    (handleFileUpload st fname jsonData).isRestored = false ∧
    ((¬ st.isRestored ∨ st.fileName ≠ fname) →
      (handleFileUpload st fname jsonData).charts = [] ∧
      (handleFileUpload st fname jsonData).dashboardTitle =
        getFileNameWithoutExtension fname) ∧
    (st.isRestored ∧ st.fileName = fname →
      (handleFileUpload st fname jsonData).charts = st.charts ∧
      (handleFileUpload st fname jsonData).dashboardTitle =
        st.dashboardTitle) := by
  refine ⟨rfl, rfl, fun h => ?_, fun hr => ?_⟩
  · rcases h with h | h
    · have hb : st.isRestored = false := by simpa using h
      constructor <;> simp [handleFileUpload, hb]
    · constructor <;> simp [handleFileUpload, h]
  · constructor <;> simp [handleFileUpload, hr.1, hr.2]

/-- C6 (witness): at concrete states the two branches behave as stated. -/
theorem handleFileUpload_spec_witness :
    (handleFileUpload stFresh "data.csv" []).charts = [] ∧
    (handleFileUpload stFresh "data.csv" []).dashboardTitle = "data" ∧
    (handleFileUpload stRestored "data.csv" []).charts = stRestored.charts := by
  have h₁ := (handleFileUpload_spec stFresh "data.csv" []).2.2.1
    (Or.inl (by decide))
  have h₂ := ((handleFileUpload_spec stRestored "data.csv" []).2.2.2
    ⟨by decide, by decide⟩).1
  refine ⟨h₁.1, ?_, h₂⟩
  rw [h₁.2]
  decide

/-- A string equals `""` exactly when its character list is empty. -/
theorem string_eq_empty_iff (s : String) : s = "" ↔ s.toList = [] := by
  constructor
  · rintro rfl
    rfl
  · intro h
    cases s with
    | mk data =>
      have hd : data = [] := h
      rw [hd]

/-- C8 (counterexample): a stored empty string is not parseable as JSON,
yet the `if (savedStateJSON)` truthiness guard skips the restore block
entirely, so the corrupt entry survives in storage — refuting the claim
that every unparseable stored value is deleted. -/
theorem restoreOnAuth_empty_string_kept :
    restoreOnAuth (fun _ => none) (some "") stFresh = (stFresh, some "") ∧
    (restoreOnAuth (fun _ => none) (some "") stFresh).2 ≠ none := by
  constructor
  · rfl
  · intro h
    exact Option.noConfusion h

/-- C8 (amended): when the autosave key is absent, nothing is restored and
the state is unchanged; when the stored value is a non-empty string that
fails to parse, the state is unchanged and the corrupt entry is deleted;
when the stored value is the empty string (falsy), the whole restore block
is skipped: the state is unchanged and the entry stays in storage.  The
effect is a total function, so the session-start path never throws. -/
theorem restoreOnAuth_spec (parse : String → Option ParsedSnapshot)
    (st : AppState) :
    restoreOnAuth parse none st = (st, none) ∧
    (∀ s, s ≠ "" → parse s = none →
      restoreOnAuth parse (some s) st = (st, none)) ∧
    restoreOnAuth parse (some "") st = (st, some "") := by
  refine ⟨rfl, fun s hs h => ?_, rfl⟩
  have hts : ¬ s.toList.isEmpty = true := by
    intro hh
    exact hs ((string_eq_empty_iff s).mpr (by simpa using hh))
  show (if s.toList.isEmpty then ((st, some s) : AppState × Option String)
        else restoreParsed (parse s) s st) = (st, none)
  rw [if_neg hts, h]
  rfl

/-- C8 (witness): a parser that always throws, applied to a concrete
non-empty stored string, a concrete state, and the empty stored string. -/
theorem restoreOnAuth_spec_witness :
    restoreOnAuth (fun _ => none) none stFresh = (stFresh, none) ∧
    restoreOnAuth (fun _ => none) (some "corrupt") stFresh = (stFresh, none) ∧
    restoreOnAuth (fun _ => none) (some "") stFresh = (stFresh, some "") :=
  ⟨(restoreOnAuth_spec (fun _ => none) stFresh).1,
   (restoreOnAuth_spec (fun _ => none) stFresh).2.1 "corrupt" (by decide) rfl,
   (restoreOnAuth_spec (fun _ => none) stFresh).2.2⟩

/-! ## Claim theorems: closed evaluations of the aggregation engine -/

/-- C1: at the failing input — one row whose group value is the string a and
whose measure value is the non-numeric string x — the `dataProcessor.ts`
implementation emits the empty-pool group with value 0 for Sum and Count and
`NaN` for Average, instead of omitting it; the `part_001` variant omits it
as the spec states. -/
theorem aggregateData_emptyPool_group_emitted :
    aggregateData refPrims (some rowsEmptyPool) "g" "m" .Sum =
        .ok [[("g", JsVal.str "a"), ("m", JsVal.num 0)]] ∧
    aggregateData refPrims (some rowsEmptyPool) "g" "m" .Count =
        .ok [[("g", JsVal.str "a"), ("m", JsVal.num 0)]] ∧
    aggregateData refPrims (some rowsEmptyPool) "g" "m" .Average =
        .ok [[("g", JsVal.str "a"), ("m", JsVal.nan)]] ∧
    aggregateDataVariant refPrims (some rowsEmptyPool) "g" "m" .Sum = .ok [] ∧
    aggregateDataVariant refPrims (some rowsEmptyPool) "g" "m" .Average = .ok [] := by
  refine ⟨?_, ?_, ?_, ?_, ?_⟩ <;> decide

/-- C2 (counterexample): in the frequency special case the output is not
permutation-invariant (hence not canonically sorted): the same multiset of
rows in a different order yields a different output sequence, because the
counts object enumerates keys in first-occurrence order and no sort is
applied. -/
theorem aggregateData_freq_order_dependent :
    List.Perm rowsFreqBBA rowsFreqABB ∧
    aggregateData refPrims (some rowsFreqBBA) "c" "c" .Count ≠
      aggregateData refPrims (some rowsFreqABB) "c" "c" .Count := by
  constructor
  · show List.Perm ([("c", JsVal.str "b")] :: [("c", JsVal.str "b")] ::
        [[("c", JsVal.str "a")]])
      ([("c", JsVal.str "a")] :: [("c", JsVal.str "b")] ::
        [[("c", JsVal.str "b")]])
    exact ((List.Perm.swap _ _ _).cons _).trans (List.Perm.swap _ _ _)
  · decide

/-- C10 (counterexample): the two `aggregateData` implementations are not
extensionally equal — on a group whose numeric pool is empty,
`dataProcessor.ts` emits a zero row while the `part_001` variant omits the
group. -/
theorem aggregateData_variant_differ :
    aggregateData refPrims (some rowsEmptyPool) "g" "m" .Sum ≠
      aggregateDataVariant refPrims (some rowsEmptyPool) "g" "m" .Sum := by
  decide

/-- C5 (counterexample): with two distinct configs sharing a title, sorting
by title-asc and then title-desc does not reverse the list — both sorts are
stable, so the tied pair keeps its original order both times, while the
reverse swaps it. -/
theorem sortedCharts_title_inversion_fails_on_ties :
    sortedCharts (sortedCharts [cfgTieA, cfgTieB] "title-asc") "title-desc" ≠
      (sortedCharts [cfgTieA, cfgTieB] "title-asc").reverse := by
  decide

/-! ## Claim theorems: the title sort inversion -/

theorem sortedCharts_title_asc_eq (charts : List ChartConfig) :
    sortedCharts charts "title-asc" =
      jsSort (fun a b => strCmpInt a.title b.title) charts := by
  unfold sortedCharts
  rw [if_neg (by decide), if_neg (by decide), if_pos rfl]

theorem sortedCharts_title_desc_eq (charts : List ChartConfig) :
    sortedCharts charts "title-desc" =
      jsSort (fun a b => strCmpInt b.title a.title) charts := by
  unfold sortedCharts
  rw [if_neg (by decide), if_neg (by decide), if_neg (by decide), if_pos rfl]

/-- Sorting a strictly ascending list with the flipped comparator reverses
it. -/
theorem jsSort_desc_reverse {α : Type} {c : α → α → Int}
    (hswap : ∀ x y, c y x = - c x y) :
    ∀ {l : List α}, l.Pairwise (fun a b => c a b < 0) →
      jsSort (fun a b => c b a) l = l.reverse := by
  intro l
  induction l with
  | nil => intro _; rfl
  | cons a t ih =>
    intro h
    rw [List.pairwise_cons] at h
    show jsInsert (fun a b => c b a) a (jsSort (fun a b => c b a) t) = _
    rw [ih h.2, jsInsert_eq_append, List.reverse_cons]
    intro b hb
    have hab := h.1 b (List.mem_reverse.mp hb)
    have := hswap a b
    omega

/-- C5 (amended): when the titles are pairwise distinct, sorting by
title-asc and then title-desc yields the exact reverse; with tied titles the
stable sorts keep the original relative order instead (see the
counterexample).  In the model both sorts are pure functions of their input,
embedding the `[...charts].sort` copy-before-sort discipline. -/
theorem sortedCharts_title_inversion_distinct (charts : List ChartConfig)
    (hd : (charts.map ChartConfig.title).Nodup) :
    sortedCharts (sortedCharts charts "title-asc") "title-desc" =
      (sortedCharts charts "title-asc").reverse := by
  rw [sortedCharts_title_asc_eq, sortedCharts_title_desc_eq]
  have hsorted :
      (jsSort (fun a b => strCmpInt a.title b.title) charts).Pairwise
        (fun a b => strCmpInt a.title b.title ≤ 0) :=
    @jsSort_pairwise ChartConfig (fun a b => strCmpInt a.title b.title)
      (fun x y z hx hy => strCmpInt_le_trans hx hy)
      (fun x y => strCmpInt_total x.title y.title) charts
  have hne :
      (jsSort (fun a b => strCmpInt a.title b.title) charts).Pairwise
        (fun a b => a.title ≠ b.title) := by
    have hmap :
        ((jsSort (fun a b => strCmpInt a.title b.title) charts).map
          ChartConfig.title).Nodup :=
      (((jsSort_perm (fun a b => strCmpInt a.title b.title) charts).map
        ChartConfig.title).nodup_iff).mpr hd
    exact List.pairwise_map.mp hmap
  have hstrict :
      (jsSort (fun a b => strCmpInt a.title b.title) charts).Pairwise
        (fun a b => strCmpInt a.title b.title < 0) :=
    (hsorted.and hne).imp (fun h =>
      lt_of_le_of_ne h.1 (fun h0 => h.2 (strCmpInt_eq_zero_iff.mp h0)))
  exact jsSort_desc_reverse
    (fun x y : ChartConfig => strCmpInt_swap x.title y.title) hstrict

/-- C5 (witness): the amended inversion at two configs with distinct
titles. -/
theorem sortedCharts_title_inversion_distinct_witness :
    ([cfgAlpha, cfgBeta].map ChartConfig.title).Nodup ∧
    sortedCharts (sortedCharts [cfgAlpha, cfgBeta] "title-asc") "title-desc" =
      (sortedCharts [cfgAlpha, cfgBeta] "title-asc").reverse :=
  ⟨by decide, sortedCharts_title_inversion_distinct [cfgAlpha, cfgBeta] (by decide)⟩

/-! ## Arithmetic and congruence helpers for the aggregation claims -/

theorem resultVal_count_congr {vs vs2 : List ℚ} (h : vs.length = vs2.length) :
    resultVal .Count vs = resultVal .Count vs2 := by
  simp [resultVal, h]

theorem getCell_pair_self (g m k : String) (v : JsVal) :
    getCell [(g, JsVal.str k), (m, v)] g = some (.str k) := by
  simp [getCell, List.find?]

theorem keyCellStr_pair (g m k : String) (v : JsVal) :
    keyCellStr g [(g, JsVal.str k), (m, v)] = k := by
  rw [keyCellStr, getCell_pair_self]

theorem cmpRows_pair (p : JsPrims) (g m : String) (k₁ k₂ : String)
    (v₁ v₂ : JsVal) :
    cmpRows p g [(g, JsVal.str k₁), (m, v₁)] [(g, JsVal.str k₂), (m, v₂)] =
      strCmpInt k₁ k₂ := by
  rw [cmpRows.eq_def, getCell_pair_self, getCell_pair_self]

/-- For `g ≠ m` the general case on clean rows produces plain two-field
rows, sorted by the string comparator on the group key. -/
theorem aggregateData_general_pairs (p : JsPrims) (g m : String)
    (agg : AggregationType) (rows : List DataRow)
    (hgm : g ≠ m) (hne : rows ≠ [])
    (hcl : ∀ k ∈ rows.map (strKey p g), k ∉ objProtoNames) :
    aggregateData p (some rows) g m agg =
      .ok ((jsSort strCmpInt (jsObjectKeys (rowKeys p g rows))).map (fun k =>
        [(g, JsVal.str k),
         (m, resultCell (resultVal agg (poolOf p g m rows k)))])) := by
  have hc : ¬(agg = AggregationType.Count ∧ g = m) := fun h => hgm h.2
  rw [aggregateData_general p g m agg rows hc hne hcl]
  congr 1
  have hmap :
      (jsObjectKeys (rowKeys p g rows)).map (fun k =>
        objMk [(g, JsVal.str k),
               (m, resultCell (resultVal agg (poolOf p g m rows k)))]) =
      (jsObjectKeys (rowKeys p g rows)).map (fun k =>
        [(g, JsVal.str k),
         (m, resultCell (resultVal agg (poolOf p g m rows k)))]) := by
    apply List.map_congr_left
    intro k _
    rw [objMk_pair, if_neg hgm]
  rw [hmap]
  exact jsSort_map (fun k₁ k₂ => cmpRows_pair p g m k₁ k₂ _ _) _

theorem rowKeys_perm_of_perm (p : JsPrims) (g : String)
    {rows rows2 : List DataRow} (h : List.Perm rows rows2) :
    List.Perm (rowKeys p g rows) (rowKeys p g rows2) :=
  (List.perm_ext_iff_of_nodup (rowKeys_nodup p g rows)
    (rowKeys_nodup p g rows2)).mpr (fun k => by
      rw [mem_rowKeys, mem_rowKeys, (h.map (strKey p g)).mem_iff])

theorem jsSort_str_keys_eq {ks ks2 : List String} (h : List.Perm ks ks2) :
    jsSort strCmpInt ks = jsSort strCmpInt ks2 :=
  sorted_perm_eq (fun x y hxy hyx => strCmpInt_antisymm hxy hyx)
    (((jsSort_perm strCmpInt ks).trans h).trans (jsSort_perm strCmpInt ks2).symm)
    (@jsSort_pairwise String strCmpInt
      (fun x y z hx hy => strCmpInt_le_trans hx hy) strCmpInt_total ks)
    (@jsSort_pairwise String strCmpInt
      (fun x y z hx hy => strCmpInt_le_trans hx hy) strCmpInt_total ks2)

/-- The group-key sequence of the general-case output is exactly the sorted
key list. -/
theorem pairs_map_keyCellStr (p : JsPrims) (g m : String)
    (agg : AggregationType) (rows : List DataRow) :
    ((jsSort strCmpInt (jsObjectKeys (rowKeys p g rows))).map (fun k =>
      [(g, JsVal.str k),
       (m, resultCell (resultVal agg (poolOf p g m rows k)))])).map
        (keyCellStr g) =
      jsSort strCmpInt (jsObjectKeys (rowKeys p g rows)) := by
  rw [List.map_map]
  have h : ∀ k ∈ jsSort strCmpInt (jsObjectKeys (rowKeys p g rows)),
      (keyCellStr g ∘ fun k =>
        [(g, JsVal.str k),
         (m, resultCell (resultVal agg (poolOf p g m rows k)))]) k = id k := by
    intro k _
    exact keyCellStr_pair g m k (resultCell (resultVal agg (poolOf p g m rows k)))
  rw [List.map_congr_left h, List.map_id]

/-- C2 (amended): for `groupColumn ≠ measureColumn` on rows whose group
keys avoid the `Object.prototype` member names, the general case succeeds
and its output is sorted ascending by the stringified group key (under the
modelled `localeCompare` order); under any permutation of the input rows
the sequence of group keys is unchanged, and for `Count` — the only
order-insensitive reduction in binary64 — the whole output is unchanged.
The frequency special case (`Count` with equal columns) is not sorted and
not permutation-invariant (see the counterexample), and for `Sum`/`Average`
the JS float reduction is itself order-sensitive, so only the key sequence
is claimed invariant. -/
theorem aggregateData_sorted_perm_invariant (p : JsPrims) (g m : String)
    (agg : AggregationType) (rows rows2 : List DataRow) (hgm : g ≠ m)
    (hcl : ∀ k ∈ rows.map (strKey p g), k ∉ objProtoNames) :
    ∃ out, aggregateData p (some rows) g m agg = .ok out ∧
      out.Pairwise (fun a b => strCmpInt (keyCellStr g a) (keyCellStr g b) ≤ 0) ∧
      (List.Perm rows rows2 →
        ∃ out2, aggregateData p (some rows2) g m agg = .ok out2 ∧
          out2.map (keyCellStr g) = out.map (keyCellStr g) ∧
          (agg = AggregationType.Count → out2 = out)) := by
  by_cases hne : rows = []
  · subst hne
    refine ⟨[], rfl, List.Pairwise.nil, ?_⟩
    intro hperm
    rw [← hperm.nil_eq]
    exact ⟨[], rfl, rfl, fun _ => rfl⟩
  · refine ⟨_, aggregateData_general_pairs p g m agg rows hgm hne hcl, ?_, ?_⟩
    · apply List.pairwise_map.mpr
      have hp :
          (jsSort strCmpInt (jsObjectKeys (rowKeys p g rows))).Pairwise
            (fun a b => strCmpInt a b ≤ 0) :=
        @jsSort_pairwise String strCmpInt
          (fun x y z hx hy => strCmpInt_le_trans hx hy) strCmpInt_total _
      refine hp.imp ?_
      intro k₁ k₂ hab
      simpa [keyCellStr_pair] using hab
    · intro hperm
      have hne2 : rows2 ≠ [] := by
        intro h
        subst h
        exact hne hperm.symm.nil_eq.symm
      have hcl2 : ∀ k ∈ rows2.map (strKey p g), k ∉ objProtoNames := by
        intro k hk
        exact hcl k (((hperm.map (strKey p g)).mem_iff).mpr hk)
      have hkeys :
          List.Perm (jsObjectKeys (rowKeys p g rows))
            (jsObjectKeys (rowKeys p g rows2)) :=
        ((jsObjectKeys_perm _).trans (rowKeys_perm_of_perm p g hperm)).trans
          (jsObjectKeys_perm _).symm
      refine ⟨_, aggregateData_general_pairs p g m agg rows2 hgm hne2 hcl2, ?_, ?_⟩
      · rw [pairs_map_keyCellStr, pairs_map_keyCellStr,
          jsSort_str_keys_eq hkeys]
      · intro hagg
        subst hagg
        rw [jsSort_str_keys_eq hkeys.symm]
        apply List.map_congr_left
        intro k _
        have hpool :
            List.Perm (poolOf p g m rows2 k) (poolOf p g m rows k) :=
          hperm.symm.filterMap _
        rw [resultVal_count_congr hpool.length_eq]

/-- C2 (witness): the amended statement instantiated at two concrete rows
and their swap, with the `Count` reduction. -/
theorem aggregateData_sorted_perm_invariant_witness :
    ∃ out, aggregateData refPrims (some rowsTwoGroups) "g" "m" .Count = .ok out ∧
      out.Pairwise (fun a b => strCmpInt (keyCellStr "g" a) (keyCellStr "g" b) ≤ 0) ∧
      (List.Perm rowsTwoGroups rowsTwoGroupsPerm →
        ∃ out2, aggregateData refPrims (some rowsTwoGroupsPerm) "g" "m" .Count =
            .ok out2 ∧
          out2.map (keyCellStr "g") = out.map (keyCellStr "g") ∧
          (AggregationType.Count = AggregationType.Count → out2 = out)) :=
  aggregateData_sorted_perm_invariant refPrims "g" "m" .Count rowsTwoGroups
    rowsTwoGroupsPerm (by decide) (by decide)

/-! ## Counting lemmas for the frequency claim -/

theorem sum_map_add_nat (f g : String → ℕ) (ks : List String) :
    (ks.map (fun k => f k + g k)).sum = (ks.map f).sum + (ks.map g).sum := by
  induction ks with
  | nil => rfl
  | cons k t ih => simp [ih]; omega

theorem sum_map_indicator_zero {x : String} :
    ∀ {ks : List String}, x ∉ ks →
      (ks.map (fun k => if x = k then 1 else 0)).sum = 0 := by
  intro ks
  induction ks with
  | nil => intro _; rfl
  | cons k t ih =>
    intro h
    have hx : ¬ x = k := fun hxk => h (hxk ▸ List.mem_cons_self k t)
    simp [hx, ih (fun hm => h (List.mem_cons_of_mem k hm))]

theorem sum_map_indicator_one {x : String} :
    ∀ {ks : List String}, ks.Nodup → x ∈ ks →
      (ks.map (fun k => if x = k then 1 else 0)).sum = 1 := by
  intro ks
  induction ks with
  | nil => intro _ h; simp at h
  | cons k t ih =>
    intro hnd hm
    rcases List.mem_cons.mp hm with rfl | hmt
    · have hnt : x ∉ t := (List.nodup_cons.mp hnd).1
      simp [sum_map_indicator_zero hnt]
    · have hx : ¬ x = k := fun hxk => (List.nodup_cons.mp hnd).1 (hxk ▸ hmt)
      simp [hx, ih (List.nodup_cons.mp hnd).2 hmt]

theorem sum_counts (l : List String) :
    ∀ {ks : List String}, ks.Nodup → (∀ x ∈ l, x ∈ ks) →
      (ks.map (fun k => l.count k)).sum = l.length := by
  induction l with
  | nil =>
    intro ks _ _
    simp
  | cons x t ih =>
    intro ks hnd hmem
    have hcount : ∀ k ∈ ks, (x :: t).count k = t.count k + (if x = k then 1 else 0) := by
      intro k _
      rw [List.count_cons]
      by_cases h : x = k
      · simp [h]
      · simp [h, Ne.symm h]
    rw [List.map_congr_left hcount, sum_map_add_nat,
      ih hnd (fun y hy => hmem y (List.mem_cons_of_mem x hy)),
      sum_map_indicator_one hnd (hmem x (List.mem_cons_self x t))]
    simp

/-- C3 (counterexample): a row whose cell stringifies to the literal key
`__proto__` is never counted — `counts["__proto__"]` hits the accessor
inherited from `Object.prototype`, the assignment is a silent no-op, and
the frequency output is empty: no output row for a distinct value, and the
counts sum to 0 while the input has 1 row. -/
theorem aggregateData_proto_key_vanishes :
    aggregateData refPrims (some rowProto) "c" "c" .Count = .ok [] ∧
    rowProto.length = 1 :=
  ⟨by decide, rfl⟩

/-- C3 (amended): on rows whose stringified values avoid the
`Object.prototype` member names, the frequency special case returns one
output row per distinct stringified value (in JS enumeration order), the
value carried by the row for key `k` being the number of input rows whose
cell stringifies to `k`; the counts over all output rows sum to the number
of input rows; and the output never invokes string-to-number coercion (it
is invariant under any change of the `Number` builtin model).  The output
rows are the object literals `{[col]: key, [col]: count}`, whose second
computed property overwrites the first.  For values that collide with
prototype members the counting is garbled (see the counterexample). -/
theorem aggregateData_freq_counts (p : JsPrims) (c : String)
    (rows : List DataRow) (hne : rows ≠ [])
    (hcl : ∀ k ∈ rows.map (strKey p c), k ∉ objProtoNames) :
    aggregateData p (some rows) c c .Count =
      .ok ((jsObjectKeys (rowKeys p c rows)).map
        (fun k => [(c, JsVal.num (freqCount p c rows k))])) ∧
    ((jsObjectKeys (rowKeys p c rows)).map
        (fun k => [(c, JsVal.num (freqCount p c rows k))])).length =
      (rowKeys p c rows).length ∧
    ((jsObjectKeys (rowKeys p c rows)).map (freqCount p c rows)).sum =
      rows.length ∧
    (∀ p₂ : JsPrims, p₂.numToStr = p.numToStr →
      aggregateData p₂ (some rows) c c .Count =
        aggregateData p (some rows) c c .Count) := by
  refine ⟨aggregateData_freq p c rows hne hcl, ?_, ?_, ?_⟩
  · rw [List.length_map]
    exact (jsObjectKeys_perm (rowKeys p c rows)).length_eq
  · have hs := sum_counts (rows.map (strKey p c))
      (jsObjectKeys_nodup (rowKeys_nodup p c rows))
      (fun x hx => mem_jsObjectKeys.mpr (mem_rowKeys.mpr hx))
    simpa [freqCount] using hs
  · intro p₂ hp
    have hkey : ∀ r : DataRow, strKey p₂ c r = strKey p c r := by
      intro r
      unfold strKey
      cases getCell r c with
      | none => rfl
      | some v => cases v <;> simp [jsToString, hp]
    have hmapkeys : rows.map (strKey p₂ c) = rows.map (strKey p c) :=
      List.map_congr_left (fun r _ => hkey r)
    have hcl2 : ∀ k ∈ rows.map (strKey p₂ c), k ∉ objProtoNames := by
      rw [hmapkeys]
      exact hcl
    have hrk : rowKeys p₂ c rows = rowKeys p c rows := by
      unfold rowKeys
      rw [hmapkeys]
    rw [aggregateData_freq p₂ c rows hne hcl2,
      aggregateData_freq p c rows hne hcl, hrk]
    congr 1
    apply List.map_congr_left
    intro k _
    have hfc : freqCount p₂ c rows k = freqCount p c rows k := by
      unfold freqCount
      rw [hmapkeys]
    rw [hfc]

/-- C3 (witness): at three rows with values b, b, a the hypotheses hold,
there are two output rows and the counts sum to 3. -/
theorem aggregateData_freq_counts_witness :
    rowsFreqBBA ≠ [] ∧
    (∀ k ∈ rowsFreqBBA.map (strKey refPrims "c"), k ∉ objProtoNames) ∧
    ((jsObjectKeys (rowKeys refPrims "c" rowsFreqBBA)).map
        (fun k => [("c", JsVal.num (freqCount refPrims "c" rowsFreqBBA k))])).length =
      2 ∧
    ((jsObjectKeys (rowKeys refPrims "c" rowsFreqBBA)).map
      (freqCount refPrims "c" rowsFreqBBA)).sum = 3 := by
  have h := aggregateData_freq_counts refPrims "c" rowsFreqBBA (by decide) (by decide)
  refine ⟨by decide, by decide, ?_, ?_⟩
  · rw [h.2.1]
    decide
  · rw [h.2.2.1]
    decide

/-! ## Claim theorems: totality and the two implementations -/

/-- C9: null and empty row sets return the empty sequence for every column
choice and aggregation kind, and in the general case a row whose measure
value fails numeric coercion is silently excluded — appending such a row to
a group that already occurs leaves the output unchanged (on rows whose
group keys avoid the `Object.prototype` member names).  But the function is
NOT total: at the failing input — a row whose group value stringifies to
`toString` — `grouped["toString"]` finds the inherited function, the
truthiness guard skips array initialisation, and `.push` on the function
throws a `TypeError`, modelled as `.error .typeError`. -/
theorem aggregateData_total_spec (p : JsPrims) (g m : String)
    (agg : AggregationType) :
    aggregateData p none g m agg = .ok [] ∧
    aggregateData p (some []) g m agg = .ok [] ∧
    (∀ (rows : List DataRow) (r : DataRow),
      jsToNumber p (getCell r m) = none →
      strKey p g r ∈ rows.map (strKey p g) →
      ¬(agg = AggregationType.Count ∧ g = m) →
      (∀ k ∈ (rows ++ [r]).map (strKey p g), k ∉ objProtoNames) →
      aggregateData p (some (rows ++ [r])) g m agg =
        aggregateData p (some rows) g m agg) ∧
    aggregateData refPrims (some rowsThrow) "g" "m" AggregationType.Sum =
      .error .typeError := by
  refine ⟨rfl, rfl, ?_, by decide⟩
  intro rows r hco hmem hc hcl
  have hclr : ∀ k ∈ rows.map (strKey p g), k ∉ objProtoNames := by
    intro k hk
    refine hcl k ?_
    rw [List.map_append]
    exact List.mem_append_left _ hk
  have hne : rows ≠ [] := by
    intro h
    subst h
    simp at hmem
  have hne2 : rows ++ [r] ≠ [] := by simp
  have hkeys : rowKeys p g (rows ++ [r]) = rowKeys p g rows := by
    show insKeys [] ((rows ++ [r]).map (strKey p g)) = _
    rw [List.map_append]
    show ((rows.map (strKey p g)) ++ [strKey p g r]).foldl insertKey [] = _
    rw [List.foldl_append]
    show insertKey (rowKeys p g rows) (strKey p g r) = _
    unfold insertKey
    rw [if_pos (mem_rowKeys.mpr hmem)]
  have hpool : ∀ k, poolOf p g m (rows ++ [r]) k = poolOf p g m rows k := by
    intro k
    unfold poolOf
    rw [List.filterMap_append]
    have hnil :
        List.filterMap (fun row =>
          if strKey p g row == k then jsToNumber p (getCell row m) else none)
          [r] = [] := by
      cases h' : strKey p g r == k <;>
        simp [List.filterMap_cons, h', hco]
    rw [hnil, List.append_nil]
  rw [aggregateData_general p g m agg (rows ++ [r]) hc hne2 hcl,
    aggregateData_general p g m agg rows hc hne hclr, hkeys]
  congr 2
  apply List.map_congr_left
  intro k _
  rw [hpool k]

/-- C9 (witness): the null and empty cases, and appending a
coercion-failing row to an existing group, at concrete inputs. -/
theorem aggregateData_total_spec_witness :
    aggregateData refPrims none "g" "m" .Sum = .ok [] ∧
    aggregateData refPrims (some []) "g" "m" .Sum = .ok [] ∧
    aggregateData refPrims (some (rowsOnePool ++ [rowBadM])) "g" "m" .Sum =
      aggregateData refPrims (some rowsOnePool) "g" "m" .Sum := by
  have h := aggregateData_total_spec refPrims "g" "m" .Sum
  exact ⟨h.1, h.2.1,
    h.2.2.1 rowsOnePool rowBadM (by decide) (by decide) (by decide) (by decide)⟩

/-- The frequency branches of the two implementations are textually the
same code, hence equal unconditionally. -/
theorem variantRows_freq_eq (p : JsPrims) (g : String) (rows : List DataRow) :
    aggregateDataRows p rows g g .Count =
      aggregateDataVariantRows p rows g g .Count := by
  unfold aggregateDataRows aggregateDataVariantRows
  by_cases hl : rows.length = 0
  · rw [if_pos hl, if_pos hl]
  · rw [if_neg hl, if_neg hl, if_pos ⟨rfl, rfl⟩, if_pos ⟨rfl, rfl⟩]

/-- C10 (amended): the two `aggregateData` implementations agree on a null
row set, agree unconditionally on the frequency special case (textually the
same code), and agree on every input whose rows avoid prototype-member
group keys and whose groups all have a non-empty numeric pool; they differ
exactly on empty-pool groups, which `dataProcessor.ts` emits and `part_001`
omits (see the counterexample). -/
theorem aggregateData_variant_agree (p : JsPrims) (g m : String)
    (agg : AggregationType) (rows : List DataRow) :
    aggregateData p none g m agg = aggregateDataVariant p none g m agg ∧
    (agg = AggregationType.Count ∧ g = m →
      aggregateData p (some rows) g m agg =
        aggregateDataVariant p (some rows) g m agg) ∧
    ((∀ k ∈ rows.map (strKey p g), k ∉ objProtoNames) →
      (∀ k ∈ rowKeys p g rows, poolOf p g m rows k ≠ []) →
      aggregateData p (some rows) g m agg =
        aggregateDataVariant p (some rows) g m agg) := by
  refine ⟨rfl, ?_, ?_⟩
  · rintro ⟨rfl, rfl⟩
    exact variantRows_freq_eq p g rows
  · intro hcl hpool
    by_cases hne : rows = []
    · subst hne
      rfl
    · by_cases hc : agg = AggregationType.Count ∧ g = m
      · obtain ⟨h1, h2⟩ := hc
        subst h1
        subst h2
        exact variantRows_freq_eq p g rows
      · rw [aggregateData_general p g m agg rows hc hne hcl,
          aggregateDataVariant_general p g m agg rows hc hne hcl]
        congr 2
        rw [List.filter_eq_self.mpr]
        intro k hk
        simpa using hpool k (mem_jsObjectKeys.mp hk)

/-- C10 (witness): the two implementations agree at a concrete frequency
input and at a concrete general input whose single group has a non-empty
pool. -/
theorem aggregateData_variant_agree_witness :
    aggregateData refPrims (some rowsFreqBBA) "c" "c" .Count =
      aggregateDataVariant refPrims (some rowsFreqBBA) "c" "c" .Count ∧
    aggregateData refPrims (some rowsOnePool) "g" "m" .Sum =
      aggregateDataVariant refPrims (some rowsOnePool) "g" "m" .Sum := by
  have h := aggregateData_variant_agree refPrims "c" "c" .Count rowsFreqBBA
  have h2 := aggregateData_variant_agree refPrims "g" "m" .Sum rowsOnePool
  exact ⟨h.2.1 ⟨rfl, rfl⟩, h2.2.2 (by decide) (by decide)⟩
